import Mathlib

/-!
# CmdVox: segment buffer and command registry

A shallow embedding of `src/src/cmdvox.h` and `src/src/cmdvox.cpp`
(class `cmdvox::MfccCommander`) together with the properties proved about it.

Conventions of the embedding.

* C++ `int` is `Int`; `uint32_t` scores and thresholds are `Nat`.
* A raw C array is the `List` of the cells of its memory block; the live part
  is the prefix whose length the class tracks in a separate `int` field
  (`raw_length_`, `frame_count_`), exactly as in the source.  `reset()` only
  zeroes the length fields, so the memory lists survive it.
* A negative element count or offset is undefined behaviour in the source;
  the embedding clamps it with `Int.toNat`.
* The external `simplevox` primitives (voice activity, MFCC, DTW) are the
  fields of `Engines`; `float` is an abstract type `α`, the state of the
  voice-activity engine an abstract type `σ`.
* A `while`/`for` loop whose termination is not structural takes a fuel
  argument; `none` means the fuel ran out before the loop condition failed.
-/

namespace cmdvox

/-! ## Types of the external library and of `cmdvox.h` -/

/-- Modelled from the spec: `simplevox::VadState`, the voice-activity levels,
totally ordered `Warmup < Silence < Speech < Detected` (the spec calls them
Warming-up, Silence, Speech and Utterance-Complete). -/
inductive VadState where
  | Warmup
  | Silence
  | Speech
  | Detected
  deriving DecidableEq

/-- The underlying integer of the enumeration; `<` and `>=` on `VadState`
compare these. -/
def VadState.toInt : VadState → Int
  | .Warmup => 0
  | .Silence => 1
  | .Speech => 2
  | .Detected => 3

instance : LE VadState := ⟨fun a b => a.toInt ≤ b.toInt⟩

instance : LT VadState := ⟨fun a b => a.toInt < b.toInt⟩

instance (a b : VadState) : Decidable (a ≤ b) :=
  inferInstanceAs (Decidable (a.toInt ≤ b.toInt))

instance (a b : VadState) : Decidable (a < b) :=
  inferInstanceAs (Decidable (a.toInt < b.toInt))

/-- Modelled from the spec: the part of `simplevox::VadConfig` the class
reads, with the derived sample counts `frame_length()`, `before_length()` and
`decision_length()` as fields. -/
structure VadConfig where
  sample_rate : Int
  frame_length : Int
  before_length : Int
  decision_length : Int
  deriving DecidableEq

/-- Modelled from the spec: the part of `simplevox::MfccConfig` the class
reads, with the derived sample counts `frame_length()` and `hop_length()` as
fields. -/
structure MfccConfig where
  sample_rate : Int
  frame_length : Int
  hop_length : Int
  coef_num : Int
  deriving DecidableEq

/-- `struct CommanderConfig`. -/
structure CommanderConfig where
  vad_config : VadConfig
  mfcc_config : MfccConfig
  limit_time_ms : Int
  deriving DecidableEq

/-- `struct CommandInfo`: a command is identified by `(name, id)`. -/
structure CommandInfo where
  name : String
  id : Int
  threshold : Nat
  path : String
  deriving DecidableEq

/-- Modelled from the spec: `simplevox::MfccFeature`, a finalized feature
template: `frame_num` frames of `coef_num` coefficients each, stored flat. -/
structure MfccFeature (α : Type) where
  frame_num : Int
  coef_num : Int
  feature : List α
  deriving DecidableEq

/-- `struct MfccCommand`; the `unique_ptr` may be null (`none`). -/
structure MfccCommand (α : Type) where
  info : CommandInfo
  feature : Option (MfccFeature α)
  deriving DecidableEq

/-- `struct FeedResult`. -/
structure FeedResult where
  can_fetch : Bool
  deriving DecidableEq

/-- `struct FetchResult`; a default-constructed one holds a null feature. -/
structure FetchResult (α : Type) where
  feature : Option (MfccFeature α)
  deriving DecidableEq

/-- `struct DetectResult`. -/
structure DetectResult where
  command_name : String
  id : Int
  score : Nat
  deriving DecidableEq

/-- The external primitives of `simplevox` the class calls.
`vad_process` is `VadEngine::process` (new engine state and the level of the
frame), `vad_reset` is `VadEngine::reset`, `mfcc_calculate cfg frame j` is the
`j`-th coefficient `MfccEngine::calculate` writes for the samples at `frame`,
`calcDTW` is `simplevox::calcDTW`. -/
structure Engines (σ α : Type) where
  vad_process : σ → List Int → σ × VadState
  vad_reset : σ → σ
  mfcc_calculate : MfccConfig → List Int → Nat → α
  calcDTW : MfccFeature α → MfccFeature α → Nat

/-- The data members of `class MfccCommander`.  `vad_engine_` is the state of
the voice-activity engine, `mfcc_engine_` the configuration the MFCC engine
was initialised with. -/
structure MfccCommander (σ α : Type) where
  config_ : CommanderConfig
  vad_engine_ : σ
  mfcc_engine_ : MfccConfig
  commands : List (MfccCommand α)
  frame_length_ : Int
  raw_queue_ : List Int
  raw_max_length_ : Int
  raw_length_ : Int
  raw_mfcc_ : List α
  max_frame_num_ : Int
  pre_frame_num_ : Int
  frame_count_ : Int
  vad_state_ : VadState
  deriving DecidableEq

/-! ## Helpers of the anonymous namespace -/

/-- `divCeil(dividend, divisor)`; `/` is C++ division, truncating toward
zero. -/
def divCeil (dividend divisor : Int) : Int :=
  Int.tdiv (dividend + divisor - 1) divisor

/-- `std::copy_n(src, n, &dest[off])` on list memory: the cells
`off .. off + n - 1` of `dest` receive the first `n` cells of `src`.  A write
that runs past the end of the block (undefined behaviour in the source)
lengthens the list. -/
def copy_n {α : Type} (src : List α) (n : Nat) (dest : List α) (off : Nat) : List α :=
  dest.take off ++ src.take n ++ dest.drop (off + n)

/-- `arr_push_back(src, n, dest, length)`: returns the new `dest` and the new
`*length`. -/
def arr_push_back {α : Type} (src : List α) (n : Int) (dest : List α) (length : Int) :
    List α × Int :=
  (copy_n src n.toNat dest length.toNat, length + n)

/-- `arr_pop_front(arr, n, length)`: returns the new `arr` and the new
`*length`; nothing happens when `*length < n`. -/
def arr_pop_front {α : Type} (arr : List α) (n : Int) (length : Int) : List α × Int :=
  if length < n then (arr, length)
  else (copy_n (arr.drop n.toNat) (length - n).toNat arr 0, length - n)

/-! ## Segment buffer -/

section Buffer

variable {σ α : Type}

/-- `MfccCommander::can_fetch()`. -/
def MfccCommander.can_fetch (s : MfccCommander σ α) : Bool :=
  s.vad_state_ == VadState.Detected
    || (decide (s.vad_state_ ≥ VadState.Speech) && decide (s.max_frame_num_ ≤ s.frame_count_))

/-- `MfccCommander::reset()`. -/
def MfccCommander.reset (E : Engines σ α) (s : MfccCommander σ α) : MfccCommander σ α :=
  { s with
    raw_length_ := 0
    frame_count_ := 0
    vad_engine_ := E.vad_reset s.vad_engine_
    vad_state_ := VadState.Warmup }

/-- One pass through the body of the `while (raw_length_ >= mfcc_frame_length)`
loop of `feedSample`. -/
def MfccCommander.extractStep (E : Engines σ α) (s : MfccCommander σ α) : MfccCommander σ α :=
  let mfcc_hop_length := s.config_.mfcc_config.hop_length
  let mfcc_coef_num := s.config_.mfcc_config.coef_num
  let s1 : MfccCommander σ α :=
    if s.frame_count_ < s.max_frame_num_ then
      { s with
        raw_mfcc_ :=
          copy_n
            ((List.range s.mfcc_engine_.coef_num.toNat).map
              (E.mfcc_calculate s.mfcc_engine_ s.raw_queue_))
            s.mfcc_engine_.coef_num.toNat s.raw_mfcc_ (s.frame_count_ * mfcc_coef_num).toNat
        frame_count_ := s.frame_count_ + 1 }
    else s
  let popped := arr_pop_front s1.raw_queue_ mfcc_hop_length s1.raw_length_
  { s1 with raw_queue_ := popped.1, raw_length_ := popped.2 }

/-- The `while (raw_length_ >= mfcc_frame_length)` loop of `feedSample`; each
unit of fuel pays for one evaluation of the loop condition. -/
def MfccCommander.extractLoop (E : Engines σ α) :
    Nat → MfccCommander σ α → Option (MfccCommander σ α)
  | 0, _ => none
  | fuel + 1, s =>
    if s.raw_length_ ≥ s.config_.mfcc_config.frame_length then
      MfccCommander.extractLoop E fuel (s.extractStep E)
    else some s

/-- The pre-speech trim of `feedSample` (the body of the
`if (state < Speech && frame_count_ > pre_frame_num_)`). -/
def MfccCommander.trim (s : MfccCommander σ α) : MfccCommander σ α :=
  let mfcc_coef_num := s.config_.mfcc_config.coef_num
  let over_count := s.frame_count_ - s.pre_frame_num_
  let over_length := over_count * mfcc_coef_num
  let length := s.frame_count_ * mfcc_coef_num
  let popped := arr_pop_front s.raw_mfcc_ over_length length
  { s with raw_mfcc_ := popped.1, frame_count_ := s.frame_count_ - over_count }

/-- `MfccCommander::feedSample(data)`; `fuel` bounds the extraction loop. -/
def MfccCommander.feedSample (E : Engines σ α) (fuel : Nat) (s : MfccCommander σ α)
    (data : List Int) : Option (MfccCommander σ α × FeedResult) :=
  let result : FeedResult := { can_fetch := s.can_fetch }
  if s.can_fetch then some (s, result)
  else
    let vad_frame_length := s.config_.vad_config.frame_length
    let processed := E.vad_process s.vad_engine_ data
    let state := processed.2
    let s1 : MfccCommander σ α := { s with vad_engine_ := processed.1, vad_state_ := state }
    let s2 : MfccCommander σ α :=
      if state ≥ VadState.Silence then
        let pushed := arr_push_back data vad_frame_length s1.raw_queue_ s1.raw_length_
        { s1 with raw_queue_ := pushed.1, raw_length_ := pushed.2 }
      else s1
    match MfccCommander.extractLoop E fuel s2 with
    | none => none
    | some s3 =>
      let s4 : MfccCommander σ α :=
        if state < VadState.Speech ∧ s3.frame_count_ > s3.pre_frame_num_ then s3.trim else s3
      some (s4, { can_fetch := s4.can_fetch })

/-- The state `feedSample` enters its extraction loop with, when it runs: the
voice-activity primitive has processed `data` and, from `Silence` upward, the
frame has been pushed onto the raw queue (lines 274 to 278 of the source). -/
def MfccCommander.feedPush (E : Engines σ α) (s : MfccCommander σ α) (data : List Int) :
    MfccCommander σ α :=
  let processed := E.vad_process s.vad_engine_ data
  let s1 : MfccCommander σ α := { s with vad_engine_ := processed.1, vad_state_ := processed.2 }
  if processed.2 ≥ VadState.Silence then
    let pushed := arr_push_back data s.config_.vad_config.frame_length s1.raw_queue_ s1.raw_length_
    { s1 with raw_queue_ := pushed.1, raw_length_ := pushed.2 }
  else s1

/-- Modelled from the spec: `MfccEngine::create(mfccs, frame_num, coef_num)`,
which builds a template owning the first `frame_num` frames (of `coef_num`
coefficients each) found at `mfccs`. -/
def createFeature (mfccs : List α) (frame_num coef_num : Int) : MfccFeature α :=
  { frame_num := frame_num
    coef_num := coef_num
    feature := mfccs.take (frame_num * coef_num).toNat }

/-- `MfccCommander::fetchFeature()`. -/
def MfccCommander.fetchFeature (E : Engines σ α) (s : MfccCommander σ α) :
    MfccCommander σ α × FetchResult α :=
  if s.can_fetch then
    (s.reset E,
      { feature := some (createFeature s.raw_mfcc_ s.frame_count_ s.mfcc_engine_.coef_num) })
  else (s, { feature := none })

end Buffer

/-! ## Command registry -/

section Registry

variable {α : Type}

/-- The loop of `MfccCommander::add` over the vector `commands`: the first
element with the id and the name of `command` is swapped with it, otherwise
`command` is pushed at the back. -/
def addCommand : List (MfccCommand α) → MfccCommand α → List (MfccCommand α)
  | [], command => [command]
  | cmd :: rest, command =>
    if cmd.info.id = command.info.id ∧ cmd.info.name = command.info.name then command :: rest
    else cmd :: addCommand rest command

/-- The loop of `MfccCommander::remove` with the iterator `it` as an index
into `commands`.  `std::string::compare` is non-zero exactly when the two
strings differ.  Each unit of fuel pays for one evaluation of
`it != commands.end()`. -/
def removeLoop (name : String) (id : Int) :
    Nat → List (MfccCommand α) → Nat → Option (List (MfccCommand α))
  | 0, _, _ => none
  | fuel + 1, commands, it =>
    match commands.get? it with
    | none => some commands
    | some cmd =>
      if cmd.info.name ≠ name then
        if id < 0 ∨ id = cmd.info.id then removeLoop name id fuel (commands.eraseIdx it) it
        else removeLoop name id fuel commands it
      else removeLoop name id fuel commands (it + 1)

/-- The loop of `MfccCommander::modifyInfo`. -/
def modifyInfoCommands (name : String) (id : Int) (info : CommandInfo) :
    List (MfccCommand α) → List (MfccCommand α)
  | [] => []
  | command :: rest =>
    if command.info.name = name ∧ command.info.id = id then { command with info := info } :: rest
    else command :: modifyInfoCommands name id info rest

variable {σ : Type}

/-- `MfccCommander::add(command)`. -/
def MfccCommander.add (s : MfccCommander σ α) (command : MfccCommand α) : MfccCommander σ α :=
  { s with commands := addCommand s.commands command }

/-- `MfccCommander::remove(name, id)`, the iterator starting at
`commands.begin()`. -/
def MfccCommander.remove (fuel : Nat) (s : MfccCommander σ α) (name : String) (id : Int) :
    Option (MfccCommander σ α) :=
  (removeLoop name id fuel s.commands 0).map fun cs => { s with commands := cs }

/-- `MfccCommander::modifyInfo(name, id, info)`. -/
def MfccCommander.modifyInfo (s : MfccCommander σ α) (name : String) (id : Int)
    (info : CommandInfo) : MfccCommander σ α :=
  { s with commands := modifyInfoCommands name id info s.commands }

/-- `MfccCommander::clear()`. -/
def MfccCommander.clear (s : MfccCommander σ α) : MfccCommander σ α :=
  { s with commands := [] }

end Registry

/-! ## Matcher -/

section Matcher

variable {σ α : Type}

/-- `UINT32_MAX`. -/
def UINT32_MAX : Nat := 4294967295

/-- Why a modelled call gives no result: the fuel of a loop ran out, a null
`unique_ptr` feature was dereferenced, or a vector was indexed out of
range. -/
inductive Failure where
  | outOfFuel
  | nullFeature
  | badIndex
  deriving DecidableEq

/-- The `for (int i = 0; i < commands.size(); i++)` loop of `detect`, over the
commands from index `i` on, with the running `(index, min_dtw)`.
`*fetch_result.feature` and `*command.feature` dereference the pointers, which
fails on a null one. -/
def detectLoop (E : Engines σ α) (feature : Option (MfccFeature α)) :
    List (MfccCommand α) → Int → Int × Nat → Except Failure (Int × Nat)
  | [], _, best => .ok best
  | command :: rest, i, best =>
    match feature, command.feature with
    | some f, some g =>
      let dtw := E.calcDTW f g
      if dtw < best.2 ∧ dtw < command.info.threshold then detectLoop E feature rest (i + 1) (i, dtw)
      else detectLoop E feature rest (i + 1) best
    | _, _ => .error Failure.nullFeature

/-- `MfccCommander::detect(data, result)`: the state left, the caller's
`DetectResult` as left, and the returned flag; `fuel` bounds the extraction
loop of the feed. -/
def MfccCommander.detect (E : Engines σ α) (fuel : Nat) (s : MfccCommander σ α)
    (data : List Int) (result : DetectResult) :
    Except Failure (MfccCommander σ α × DetectResult × Bool) :=
  match s.feedSample E fuel data with
  | none => .error Failure.outOfFuel
  | some fed =>
    if fed.2.can_fetch then
      let fetched := fed.1.fetchFeature E
      match detectLoop E fetched.2.feature fetched.1.commands 0 (-1, UINT32_MAX) with
      | .error e => .error e
      | .ok best =>
        let is_detected := decide (best.1 ≥ 0)
        if is_detected then
          match fetched.1.commands.get? best.1.toNat with
          | none => .error Failure.badIndex
          | some command =>
            .ok (fetched.1,
              { command_name := command.info.name, id := command.info.id, score := best.2 },
              is_detected)
        else .ok (fetched.1, result, is_detected)
    else .ok (fed.1, result, false)

end Matcher

/-! ## Settings file -/

section Settings

variable {σ α : Type}

/-- Modelled from the spec: the file store behind `fopen`, `stat` and `fread`:
the content found at a path, and whether a path can be opened for writing. -/
structure FileStore where
  content : String → Option String
  writable : String → Bool

/-- The external readers `loadSettings` calls.  `deserializeJson text` is
ArduinoJson's `deserializeJson` followed by the reading of the four fields of
every record of the array `commands` (`none` on a parse error);
`loadFeature path` is `simplevox::MfccEngine::loadFile`, null on failure. -/
structure SettingsCodec (α : Type) where
  deserializeJson : String → Option (List CommandInfo)
  loadFeature : String → Option (MfccFeature α)

/-- The text one `fprintf` of the loop of `saveSettings` writes for a command:
`"name":"%s", "id":%d, "threshold":%lu, "path":"%s"` between braces.  The
strings are written as they are (`%s` would stop at an embedded NUL, which
names and paths are taken not to contain). -/
def settingsRecordText (info : CommandInfo) : String :=
  "\x7b\"name\":\"" ++ info.name ++ "\", \"id\":" ++ toString info.id ++ ", \"threshold\":" ++
    toString info.threshold ++ ", \"path\":\"" ++ info.path ++ "\"\x7d"

/-- The whole text `saveSettings` writes: the records, separated by a comma and
a newline, inside the array named `commands`. -/
def settingsText (commands : List (MfccCommand α)) : String :=
  "\x7b\"commands\":[" ++ ",\n".intercalate (commands.map fun c => settingsRecordText c.info) ++
    "]\x7d"

/-- `MfccCommander::saveSettings(path)`: the file store afterwards.  Nothing is
written when the file cannot be opened. -/
def MfccCommander.saveSettings (s : MfccCommander σ α) (files : FileStore) (path : String) :
    FileStore :=
  if files.writable path then
    { files with content := fun p => if p = path then some (settingsText s.commands)
                                     else files.content p }
  else files

/-- `MfccCommander::loadSettings(path)`: nothing happens when `stat` fails or
the text does not parse; otherwise every record is turned into a command, its
feature loaded from its `path`, and added with `add`. -/
def MfccCommander.loadSettings (C : SettingsCodec α) (files : FileStore)
    (s : MfccCommander σ α) (path : String) : MfccCommander σ α :=
  match files.content path with
  | none => s
  | some text =>
    match C.deserializeJson text with
    | none => s
    | some records =>
      records.foldl
        (fun acc info => acc.add { info := info, feature := C.loadFeature info.path }) s

/-! The reader side of the settings file.  ArduinoJson is outside this
repository; what the round trip needs of it is that it reads a document of the
layout `saveSettings` prints as the fields printed.  The definitions below
spell that layout out as a reader of their own, written from the format
strings of `saveSettings` and the JSON grammar and independent of
`settingsText`: literal punctuation as printed, strings of unescaped characters
between double quotes, numbers in decimal without leading zeros. -/

end Settings

/-! ## Threshold of the reference registration (`examples/advanced.cpp`) -/

section Registration

end Registration

/-! ## Call sequences -/

section Sequences

variable {σ α : Type}

/-- One call on the segment buffer: `feedSample(data)` (with the fuel of its
extraction loop), `fetchFeature()` or `reset()`. -/
inductive BufferOp where
  | feed (fuel : Nat) (data : List Int)
  | fetch
  | reset

/-- The state after one call; `none` when a `feedSample` runs out of fuel. -/
def MfccCommander.applyOp (E : Engines σ α) (s : MfccCommander σ α) :
    BufferOp → Option (MfccCommander σ α)
  | .feed fuel data => (s.feedSample E fuel data).map Prod.fst
  | .fetch => some (s.fetchFeature E).1
  | .reset => some (s.reset E)

/-- The state after a finite sequence of calls, made in list order. -/
def MfccCommander.runOps (E : Engines σ α) :
    MfccCommander σ α → List BufferOp → Option (MfccCommander σ α)
  | s, [] => some s
  | s, op :: rest =>
    match s.applyOp E op with
    | none => none
    | some s' => MfccCommander.runOps E s' rest

/-- A run of `feedSample` calls, one per `(fuel, data)` pair, made in list
order; the result lists, call by call, the state after the call and the
`FeedResult` it returned. -/
def MfccCommander.feedAll (E : Engines σ α) :
    MfccCommander σ α → List (Nat × List Int) → Option (List (MfccCommander σ α × FeedResult))
  | _, [] => some []
  | s, call :: rest =>
    match s.feedSample E call.1 call.2 with
    | none => none
    | some out => (MfccCommander.feedAll E out.1 rest).map fun tail => out :: tail

/-- The identity key `(name, id)` of a registry entry. -/
def MfccCommand.key (c : MfccCommand α) : String × Int :=
  (c.info.name, c.info.id)

/-- At most one entry for each `(name, id)` pair. -/
def UniqueKeys (commands : List (MfccCommand α)) : Prop :=
  (commands.map MfccCommand.key).Nodup

instance (commands : List (MfccCommand α)) : Decidable (UniqueKeys commands) :=
  inferInstanceAs (Decidable (commands.map MfccCommand.key).Nodup)

/-- One call on the registry: `add`, `remove` (with the fuel of its loop),
`modifyInfo` or `clear`. -/
inductive RegistryOp (α : Type) where
  | add (command : MfccCommand α)
  | remove (fuel : Nat) (name : String) (id : Int)
  | modifyInfo (name : String) (id : Int) (info : CommandInfo)
  | clear

/-- The registry after one call; `none` when a `remove` runs out of fuel. -/
def applyRegistryOp (commands : List (MfccCommand α)) :
    RegistryOp α → Option (List (MfccCommand α))
  | .add command => some (addCommand commands command)
  | .remove fuel name id => removeLoop name id fuel commands 0
  | .modifyInfo name id info => some (modifyInfoCommands name id info commands)
  | .clear => some []

/-- The registry after a finite sequence of calls, made in list order. -/
def runRegistryOps : List (MfccCommand α) → List (RegistryOp α) → Option (List (MfccCommand α))
  | commands, [] => some commands
  | commands, op :: rest =>
    match applyRegistryOp commands op with
    | none => none
    | some commands' => runRegistryOps commands' rest

/-- A `modifyInfo(name, id, info)` call keeps keys apart when `info` carries
the key `(name, id)` it is called with, or a key no entry of the registry
holds; every other call does. -/
def RegistryOp.keepsKeys (commands : List (MfccCommand α)) : RegistryOp α → Prop
  | .modifyInfo name id info =>
    (info.name = name ∧ info.id = id) ∨ ∀ c ∈ commands, c.key ≠ (info.name, info.id)
  | _ => True

/-- Every call of the sequence keeps keys apart in the registry it is made
on. -/
def keepsKeysAlong : List (MfccCommand α) → List (RegistryOp α) → Prop
  | _, [] => True
  | commands, op :: rest =>
    op.keepsKeys commands ∧
      match applyRegistryOp commands op with
      | none => True
      | some commands' => keepsKeysAlong commands' rest

/-- The registry the spec describes for `remove(name, id)`: the entries named
`name` are deleted, all of them when `id` is negative, else those with that
`id`; the others stay in order. -/
def removeSpec (name : String) (id : Int) (commands : List (MfccCommand α)) :
    List (MfccCommand α) :=
  commands.filter fun c => !(decide (c.info.name = name) && (decide (id < 0) || decide (c.info.id = id)))

end Sequences

/-! ## Concrete data used by the examples -/

/-- A voice-activity engine whose state is the list of levels it will report,
one per processed frame (`Warmup` once the list is exhausted); the `j`-th
MFCC coefficient of a frame is its first sample plus `j`. -/
def scriptedEngines : Engines (List VadState) Nat where
  vad_process := fun st _ => (st.tail, st.headD VadState.Warmup)
  vad_reset := fun st => st
  mfcc_calculate := fun _ frame j => (frame.headD 0).toNat + j
  calcDTW := fun _ _ => 0

/-- A small configuration: voice-activity frames of 2 samples, MFCC frames of
2 samples with hop 1 and 1 coefficient. -/
def demoConfig : CommanderConfig where
  vad_config := { sample_rate := 1000, frame_length := 2, before_length := 2, decision_length := 2 }
  mfcc_config := { sample_rate := 1000, frame_length := 2, hop_length := 1, coef_num := 1 }
  limit_time_ms := 4

/-- A commander over `demoConfig` with room for 3 feature frames and a
pre-speech budget of 1 frame, with the given engine state, buffers, lengths
and voice-activity state. -/
def demoState (σ : Type) (engine : σ) (raw_queue : List Int) (raw_length : Int)
    (raw_mfcc : List Nat) (frame_count : Int) (vad_state : VadState) : MfccCommander σ Nat where
  config_ := demoConfig
  vad_engine_ := engine
  mfcc_engine_ := demoConfig.mfcc_config
  commands := []
  frame_length_ := 2
  raw_queue_ := raw_queue
  raw_max_length_ := 4
  raw_length_ := raw_length
  raw_mfcc_ := raw_mfcc
  max_frame_num_ := 3
  pre_frame_num_ := 1
  frame_count_ := frame_count
  vad_state_ := vad_state

/-- The `demoState` commander as `reset()` leaves it, buffers zero-filled. -/
def demoCommander (σ : Type) (engine : σ) : MfccCommander σ Nat :=
  demoState σ engine [0, 0, 0, 0] 0 [0, 0, 0] 0 VadState.Warmup

/-- A registry entry without a feature. -/
def demoCommand (name : String) (id : Int) (threshold : Nat) : MfccCommand Nat where
  info := { name := name, id := id, threshold := threshold, path := "" }
  feature := none

/-- An entry qualifies for the template `f` when its feature is present and
its distance to `f` is strictly below its own threshold. -/
def Qualifies {σ α : Type} (E : Engines σ α) (f : MfccFeature α) (c : MfccCommand α) : Prop :=
  ∃ g, c.feature = some g ∧ E.calcDTW f g < c.info.threshold

/-- Engines as `scriptedEngines`, with the distance of two templates the
distance of the sums of their coefficients. -/
def matchEngines : Engines (List VadState) Nat where
  vad_process := fun st _ => (st.tail, st.headD VadState.Warmup)
  vad_reset := fun st => st
  mfcc_calculate := fun _ frame j => (frame.headD 0).toNat + j
  calcDTW := fun f g => Nat.dist f.feature.sum g.feature.sum

/-- A registry entry owning a one-frame feature with the given coefficient. -/
def demoFeatureCommand (name : String) (id : Int) (threshold : Nat) (coef : Nat) :
    MfccCommand Nat where
  info := { name := name, id := id, threshold := threshold, path := "" }
  feature := some { frame_num := 1, coef_num := 1, feature := [coef] }

/-- The template `fetchFeature` builds from the state `s`:
`create(raw_mfcc_, frame_count_, coef_num)`. -/
abbrev MfccCommander.collected {σ α : Type} (s : MfccCommander σ α) : MfccFeature α :=
  createFeature s.raw_mfcc_ s.frame_count_ s.mfcc_engine_.coef_num

/-- A commander one `Detected` frame away from a template, with three
registered commands; the last two lie at the same distance from the template
that frame completes. -/
def demoMatchState : MfccCommander (List VadState) Nat :=
  { demoState _ [VadState.Detected] [6, 6, 6, 0] 1 [3, 4, 5] 1 VadState.Silence with
    commands :=
      [demoFeatureCommand "a" 1 10 5, demoFeatureCommand "b" 1 10 9,
        demoFeatureCommand "c" 1 10 9] }

/-- The state `demoMatchState` is in after `feedSample` of the frame `7, 8`. -/
def demoMatchFed : MfccCommander (List VadState) Nat :=
  { demoState _ [] [8, 8, 8, 0] 1 [3, 6, 7] 3 VadState.Detected with
    commands :=
      [demoFeatureCommand "a" 1 10 5, demoFeatureCommand "b" 1 10 9,
        demoFeatureCommand "c" 1 10 9] }

/-- A registry entry without a feature, with the path of its feature file. -/
def demoFileCommand (name : String) (id : Int) (threshold : Nat) (path : String) :
    MfccCommand Nat where
  info := { name := name, id := id, threshold := threshold, path := path }
  feature := none

/-- A commander holding the given registry. -/
def demoRegistry (commands : List (MfccCommand Nat)) : MfccCommander Unit Nat :=
  { demoCommander Unit () with commands := commands }

/-- The states and results of four `feedSample` calls, frames `1, 2` to
`7, 8`, on `demoCommander` with the script `Warmup, Silence, Silence,
Silence`. -/
def demoSilenceOuts : List (MfccCommander (List VadState) Nat × FeedResult) :=
  [(demoState _ [VadState.Silence, VadState.Silence, VadState.Silence] [0, 0, 0, 0] 0 [0, 0, 0] 0
      VadState.Warmup, { can_fetch := false }),
    (demoState _ [VadState.Silence, VadState.Silence] [4, 4, 0, 0] 1 [3, 0, 0] 1
      VadState.Silence, { can_fetch := false }),
    (demoState _ [VadState.Silence] [6, 6, 6, 0] 1 [5, 4, 5] 1 VadState.Silence,
      { can_fetch := false }),
    (demoState _ [] [8, 8, 8, 0] 1 [7, 6, 7] 1 VadState.Silence, { can_fetch := false })]

/-- The first `count` frames of a feature memory that holds `coef` cells per
frame, oldest first. -/
def framesOf {α : Type} (mem : List α) (coef count : Nat) : List (List α) :=
  (List.range count).map fun j => (mem.drop (j * coef)).take coef

/-- The bookkeeping of a continuous utterance started on `s0`: after `i` pushed
frames and `t` passes of the extraction loop in all, the state `s` holds
`i * V - t * H` samples, fewer than `F`, the last pass was made with at least
`F` samples queued, and the frame count is `t` capped at `max_frame_num_`. -/
def UtteranceInv {σ α : Type} (s0 s : MfccCommander σ α) (i : Nat) (t : Int) : Prop :=
  s.config_ = s0.config_ ∧ s.max_frame_num_ = s0.max_frame_num_ ∧ 0 ≤ t ∧
    s.raw_length_ =
      i * s0.config_.vad_config.frame_length - t * s0.config_.mfcc_config.hop_length ∧
    s.raw_length_ < s0.config_.mfcc_config.frame_length ∧
    (t = 0 ∨ s0.config_.mfcc_config.frame_length ≤
      i * s0.config_.vad_config.frame_length - (t - 1) * s0.config_.mfcc_config.hop_length) ∧
    s.frame_count_ = min s0.max_frame_num_ t

/-- The number of MFCC frames (`F` samples long, `H` apart) that `k` pushed
voice-activity frames of `V` samples contain: `0` when `k * V < F`, else
`(k * V - F) / H + 1`. -/
def utteranceFrames (V F H : Int) (k : Nat) : Int :=
  if k * V < F then 0 else (k * V - F) / H + 1

/-- A file store with no file, where every path can be written. -/
def emptyFiles : FileStore where
  content := fun _ => none
  writable := fun _ => true

/-- A reader that decodes the text `saveSettings` writes for the registry
`commands` into the records of `commands`, fails on any other text, and finds
no feature file. -/
def echoCodec (commands : List (MfccCommand Nat)) : SettingsCodec Nat where
  deserializeJson := fun text =>
    if text = settingsText commands then some (commands.map fun c => c.info) else none
  loadFeature := fun _ => none

end cmdvox

/-! ## Properties of the segment buffer -/

namespace cmdvox

section BufferLemmas

variable {σ α : Type}

theorem can_fetch_iff (s : MfccCommander σ α) :
    s.can_fetch = true ↔
      (s.vad_state_ = VadState.Detected ∨
        (VadState.Speech ≤ s.vad_state_ ∧ s.max_frame_num_ ≤ s.frame_count_)) := by
  simp [MfccCommander.can_fetch]

theorem extractStep_fields (E : Engines σ α) (s : MfccCommander σ α) :
    (s.extractStep E).max_frame_num_ = s.max_frame_num_ ∧
      (s.extractStep E).pre_frame_num_ = s.pre_frame_num_ ∧
      (s.extractStep E).config_ = s.config_ ∧
      (s.extractStep E).vad_state_ = s.vad_state_ ∧
      (s.extractStep E).vad_engine_ = s.vad_engine_ ∧
      (s.extractStep E).commands = s.commands := by
  unfold MfccCommander.extractStep
  by_cases h : s.frame_count_ < s.max_frame_num_ <;> simp [h]

theorem extractStep_frame_count (E : Engines σ α) (s : MfccCommander σ α) :
    (s.extractStep E).frame_count_ =
      if s.frame_count_ < s.max_frame_num_ then s.frame_count_ + 1 else s.frame_count_ := by
  unfold MfccCommander.extractStep
  by_cases h : s.frame_count_ < s.max_frame_num_ <;> simp [h]

theorem extractLoop_fields (E : Engines σ α) (fuel : Nat) :
    ∀ s s' : MfccCommander σ α, MfccCommander.extractLoop E fuel s = some s' →
      s'.max_frame_num_ = s.max_frame_num_ ∧ s'.pre_frame_num_ = s.pre_frame_num_ ∧
        s'.config_ = s.config_ ∧ s'.vad_state_ = s.vad_state_ ∧
        s'.vad_engine_ = s.vad_engine_ ∧ s'.commands = s.commands := by
  induction fuel with
  | zero => intro s s' h; simp [MfccCommander.extractLoop] at h
  | succ n ih =>
    intro s s' h
    unfold MfccCommander.extractLoop at h
    by_cases hc : s.raw_length_ ≥ s.config_.mfcc_config.frame_length
    · rw [if_pos hc] at h
      obtain ⟨h1, h2, h3, h4, h5, h6⟩ := ih _ _ h
      obtain ⟨g1, g2, g3, g4, g5, g6⟩ := extractStep_fields E s
      exact ⟨h1.trans g1, h2.trans g2, h3.trans g3, h4.trans g4, h5.trans g5, h6.trans g6⟩
    · rw [if_neg hc] at h
      cases h
      exact ⟨rfl, rfl, rfl, rfl, rfl, rfl⟩

/-- The extraction loop never lowers the frame count and never pushes it past
the larger of its starting value and `max_frame_num_`. -/
theorem extractLoop_frame_count (E : Engines σ α) (fuel : Nat) :
    ∀ s s' : MfccCommander σ α, MfccCommander.extractLoop E fuel s = some s' →
      s.frame_count_ ≤ s'.frame_count_ ∧
        (s'.frame_count_ = s.frame_count_ ∨ s'.frame_count_ ≤ s.max_frame_num_) := by
  induction fuel with
  | zero => intro s s' h; simp [MfccCommander.extractLoop] at h
  | succ n ih =>
    intro s s' h
    unfold MfccCommander.extractLoop at h
    by_cases hc : s.raw_length_ ≥ s.config_.mfcc_config.frame_length
    · rw [if_pos hc] at h
      obtain ⟨h1, h2⟩ := ih _ _ h
      have hm := (extractStep_fields E s).1
      have hf := extractStep_frame_count E s
      rw [hm] at h2
      by_cases hlt : s.frame_count_ < s.max_frame_num_
      · rw [if_pos hlt] at hf
        constructor
        · omega
        · right; rcases h2 with h2 | h2 <;> omega
      · rw [if_neg hlt] at hf
        constructor
        · omega
        · rcases h2 with h2 | h2
          · left; omega
          · right; exact h2
    · rw [if_neg hc] at h
      cases h
      exact ⟨le_refl _, Or.inl rfl⟩

theorem trim_fields (s : MfccCommander σ α) :
    s.trim.frame_count_ = s.pre_frame_num_ ∧ s.trim.max_frame_num_ = s.max_frame_num_ ∧
      s.trim.pre_frame_num_ = s.pre_frame_num_ ∧ s.trim.vad_state_ = s.vad_state_ ∧
      s.trim.raw_length_ = s.raw_length_ ∧ s.trim.raw_queue_ = s.raw_queue_ ∧
      s.trim.config_ = s.config_ ∧ s.trim.commands = s.commands := by
  simp [MfccCommander.trim]

/-- What a `feedSample` call that runs the voice-activity primitive does to the
fields the ready predicate reads: with `state` the level the primitive
reports, the state after the call carries `state`, the same `max_frame_num_`
and `pre_frame_num_`, and a frame count that is either the budget
`pre_frame_num_` (trimmed, only when `state < Speech`) or the count the
extraction loop left, which is at least the old one. -/
theorem feedSample_run (E : Engines σ α) (fuel : Nat) (s : MfccCommander σ α)
    (data : List Int) (out : MfccCommander σ α × FeedResult)
    (hready : s.can_fetch = false) (h : s.feedSample E fuel data = some out) :
    out.1.vad_state_ = (E.vad_process s.vad_engine_ data).2 ∧
      out.1.max_frame_num_ = s.max_frame_num_ ∧
      out.1.pre_frame_num_ = s.pre_frame_num_ ∧
      out.2.can_fetch = out.1.can_fetch ∧
      (out.1.vad_state_ < VadState.Speech → out.1.frame_count_ ≤ out.1.pre_frame_num_) ∧
      (out.1.frame_count_ ≤ s.frame_count_ ∨ out.1.frame_count_ ≤ s.max_frame_num_) ∧
      (VadState.Speech ≤ out.1.vad_state_ → s.frame_count_ ≤ out.1.frame_count_) := by
  unfold MfccCommander.feedSample at h
  simp only [hready, Bool.false_eq_true, if_false] at h
  split at h
  · cases h
  · rename_i s3 hloop
    have hf := extractLoop_fields E fuel _ _ hloop
    have hc := extractLoop_frame_count E fuel _ _ hloop
    obtain ⟨f1, f2, f3, f4, f5, f6⟩ := hf
    cases h
    by_cases ht : (E.vad_process s.vad_engine_ data).2 < VadState.Speech ∧
        s3.frame_count_ > s3.pre_frame_num_
    · simp only [ht, and_self, if_true]
      obtain ⟨t1, t2, t3, t4, -⟩ := trim_fields s3
      have hnot : ¬ VadState.Speech ≤ (E.vad_process s.vad_engine_ data).2 := by
        have := ht.1
        intro hle
        exact absurd (lt_of_lt_of_le (α := Int) this hle) (lt_irrefl _)
      refine ⟨?_, ?_, ?_, trivial, ?_, ?_, ?_⟩
      · rw [t4, f4]; split <;> rfl
      · rw [t2, f1]; split <;> rfl
      · rw [t3, f2]; split <;> rfl
      · intro _; rw [t1, t3]
      · rw [t1]
        have h1 := hc.2
        have h2 := ht.2
        have e1 : ∀ x : MfccCommander σ α, x.frame_count_ = s.frame_count_ →
            x.max_frame_num_ = s.max_frame_num_ →
            (s3.frame_count_ = x.frame_count_ ∨ s3.frame_count_ ≤ x.max_frame_num_) →
            s3.pre_frame_num_ ≤ s.frame_count_ ∨ s3.pre_frame_num_ ≤ s.max_frame_num_ := by
          intro x hx hx2 hh
          rcases hh with hh | hh
          · left; omega
          · right; omega
        apply e1 _ _ _ h1
        · split <;> rfl
        · split <;> rfl
      · intro hle
        rw [t4, f4] at hle
        exfalso; apply hnot
        revert hle; split <;> exact id
    · simp only [ht, if_false]
      refine ⟨?_, ?_, ?_, trivial, ?_, ?_, ?_⟩
      · rw [f4]; split <;> rfl
      · rw [f1]; split <;> rfl
      · rw [f2]; split <;> rfl
      · intro hlt
        have hv : s3.vad_state_ = (E.vad_process s.vad_engine_ data).2 := by
          rw [f4]; split <;> rfl
        rw [hv] at hlt
        by_contra hgt
        exact ht ⟨hlt, not_le.mp hgt⟩
      · have e1 : ∀ x : MfccCommander σ α, x.frame_count_ = s.frame_count_ →
            x.max_frame_num_ = s.max_frame_num_ →
            (s3.frame_count_ = x.frame_count_ ∨ s3.frame_count_ ≤ x.max_frame_num_) →
            s3.frame_count_ ≤ s.frame_count_ ∨ s3.frame_count_ ≤ s.max_frame_num_ := by
          intro x hx hx2 hh
          rcases hh with hh | hh
          · left; omega
          · right; omega
        apply e1 _ _ _ hc.2
        · split <;> rfl
        · split <;> rfl
      · intro _
        have e2 : ∀ x : MfccCommander σ α, x.frame_count_ = s.frame_count_ →
            x.frame_count_ ≤ s3.frame_count_ → s.frame_count_ ≤ s3.frame_count_ := by
          intro x hx hh; omega
        apply e2 _ _ hc.1
        split <;> rfl

theorem feedSample_ready (E : Engines σ α) (fuel : Nat) (s : MfccCommander σ α)
    (data : List Int) (hready : s.can_fetch = true) :
    s.feedSample E fuel data = some (s, { can_fetch := true }) := by
  simp [MfccCommander.feedSample, hready]

theorem feedSample_eq (E : Engines σ α) (fuel : Nat) (s : MfccCommander σ α)
    (data : List Int) (hready : s.can_fetch = false) :
    s.feedSample E fuel data =
      (MfccCommander.extractLoop E fuel (s.feedPush E data)).map fun s3 =>
        let s4 : MfccCommander σ α :=
          if (E.vad_process s.vad_engine_ data).2 < VadState.Speech ∧
              s3.frame_count_ > s3.pre_frame_num_ then s3.trim else s3
        (s4, { can_fetch := s4.can_fetch }) := by
  unfold MfccCommander.feedSample MfccCommander.feedPush
  simp only [hready, Bool.false_eq_true, if_false]
  split <;> rename_i hloop <;> simp only [hloop, Option.map_none', Option.map_some']

theorem extractStep_raw_length (E : Engines σ α) (s : MfccCommander σ α) :
    (s.extractStep E).raw_length_ =
      if s.raw_length_ < s.config_.mfcc_config.hop_length then s.raw_length_
      else s.raw_length_ - s.config_.mfcc_config.hop_length := by
  unfold MfccCommander.extractStep arr_pop_front
  by_cases h : s.frame_count_ < s.max_frame_num_ <;>
    by_cases h2 : s.raw_length_ < s.config_.mfcc_config.hop_length <;> simp [h, h2]

/-- With `0 < hop_length <= frame_length` the extraction loop ends: every pass
takes `hop_length` samples off the raw queue, so `n + 1` units of fuel are
enough as soon as `raw_length_ - frame_length < n`. -/
theorem extractLoop_terminates (E : Engines σ α) (n : Nat) :
    ∀ s : MfccCommander σ α, 0 < s.config_.mfcc_config.hop_length →
      s.config_.mfcc_config.hop_length ≤ s.config_.mfcc_config.frame_length →
      s.raw_length_ - s.config_.mfcc_config.frame_length < n →
      ∃ s', MfccCommander.extractLoop E (n + 1) s = some s' ∧
        s'.raw_length_ < s.config_.mfcc_config.frame_length := by
  induction n with
  | zero =>
    intro s _ _ hlen
    have hc : ¬ s.raw_length_ ≥ s.config_.mfcc_config.frame_length := by
      simp only [Nat.cast_zero] at hlen; omega
    exact ⟨s, by simp only [MfccCommander.extractLoop, hc, if_false], by omega⟩
  | succ n ih =>
    intro s hH hF hlen
    by_cases hc : s.raw_length_ ≥ s.config_.mfcc_config.frame_length
    · have hcfg := (extractStep_fields E s).2.2.1
      have hlen' := extractStep_raw_length E s
      have hnot : ¬ s.raw_length_ < s.config_.mfcc_config.hop_length := by omega
      rw [if_neg hnot] at hlen'
      obtain ⟨s', hs', hlt⟩ := ih (s.extractStep E) (by rw [hcfg]; exact hH)
        (by rw [hcfg]; exact hF) (by rw [hcfg, hlen']; push_cast at hlen; omega)
      refine ⟨s', ?_, by rw [hcfg] at hlt; exact hlt⟩
      rw [MfccCommander.extractLoop, if_pos hc]
      exact hs'
    · exact ⟨s, by rw [MfccCommander.extractLoop, if_neg hc], by omega⟩

theorem feedPush_config (E : Engines σ α) (s : MfccCommander σ α) (data : List Int) :
    (s.feedPush E data).config_ = s.config_ := by
  unfold MfccCommander.feedPush
  simp only
  split <;> rfl

/-- With `0 < hop_length <= frame_length` every `feedSample` call returns,
given enough fuel. -/
theorem feedSample_returns (E : Engines σ α) (s : MfccCommander σ α) (data : List Int)
    (hH : 0 < s.config_.mfcc_config.hop_length)
    (hF : s.config_.mfcc_config.hop_length ≤ s.config_.mfcc_config.frame_length) :
    ∃ fuel out, s.feedSample E fuel data = some out := by
  by_cases hr : s.can_fetch = true
  · exact ⟨0, _, feedSample_ready E 0 s data hr⟩
  · have hr' : s.can_fetch = false := by simpa using hr
    have hcfg := feedPush_config E s data
    obtain ⟨s3, hs3, -⟩ := extractLoop_terminates E
      ((s.feedPush E data).raw_length_ - s.config_.mfcc_config.frame_length).toNat.succ
      (s.feedPush E data) (by rw [hcfg]; exact hH) (by rw [hcfg]; exact hF)
      (by rw [hcfg]; push_cast; omega)
    exact ⟨_, _, by rw [feedSample_eq E _ s data hr', hs3]; rfl⟩

theorem reset_fields (E : Engines σ α) (s : MfccCommander σ α) :
    (s.reset E).raw_length_ = 0 ∧ (s.reset E).frame_count_ = 0 ∧
      (s.reset E).vad_state_ = VadState.Warmup ∧
      (s.reset E).max_frame_num_ = s.max_frame_num_ := by
  simp [MfccCommander.reset]

/-- One call keeps `max_frame_num_` and keeps the frame count at or below
it, provided `max_frame_num_` is not negative. -/
theorem applyOp_bound (E : Engines σ α) (op : BufferOp) (s s' : MfccCommander σ α)
    (hmax : 0 ≤ s.max_frame_num_) (hinv : s.frame_count_ ≤ s.max_frame_num_)
    (h : s.applyOp E op = some s') :
    s'.max_frame_num_ = s.max_frame_num_ ∧ s'.frame_count_ ≤ s'.max_frame_num_ := by
  cases op with
  | feed fuel data =>
    simp only [MfccCommander.applyOp, Option.map_eq_some'] at h
    obtain ⟨out, hout, rfl⟩ := h
    by_cases hr : s.can_fetch = true
    · rw [feedSample_ready E fuel s data hr] at hout
      cases hout
      exact ⟨rfl, hinv⟩
    · have hr' : s.can_fetch = false := by simpa using hr
      obtain ⟨-, h2, -, -, -, h6, -⟩ := feedSample_run E fuel s data out hr' hout
      refine ⟨h2, ?_⟩
      rw [h2]
      rcases h6 with h6 | h6 <;> omega
  | fetch =>
    simp only [MfccCommander.applyOp, Option.some.injEq] at h
    subst h
    unfold MfccCommander.fetchFeature
    by_cases hr : s.can_fetch = true
    · simp only [hr, if_true]
      obtain ⟨-, r2, -, r4⟩ := reset_fields E s
      exact ⟨r4, by rw [r2, r4]; exact hmax⟩
    · simp only [hr, Bool.false_eq_true, if_false]
      exact ⟨trivial, hinv⟩
  | reset =>
    simp only [MfccCommander.applyOp, Option.some.injEq] at h
    subst h
    obtain ⟨-, r2, -, r4⟩ := reset_fields E s
    exact ⟨r4, by rw [r2, r4]; exact hmax⟩

theorem runOps_bound (E : Engines σ α) (ops : List BufferOp) :
    ∀ s s' : MfccCommander σ α, 0 ≤ s.max_frame_num_ → s.frame_count_ ≤ s.max_frame_num_ →
      MfccCommander.runOps E s ops = some s' →
      s'.max_frame_num_ = s.max_frame_num_ ∧ s'.frame_count_ ≤ s'.max_frame_num_ := by
  induction ops with
  | nil =>
    intro s s' _ hinv h
    simp only [MfccCommander.runOps, Option.some.injEq] at h
    subst h
    exact ⟨rfl, hinv⟩
  | cons op rest ih =>
    intro s s' hmax hinv h
    unfold MfccCommander.runOps at h
    split at h
    · cases h
    · rename_i t ht
      obtain ⟨a1, a2⟩ := applyOp_bound E op s t hmax hinv ht
      obtain ⟨b1, b2⟩ := ih t s' (by rw [a1]; exact hmax) a2 h
      exact ⟨b1.trans a1, b2⟩

/-- The invariant behind the forced cutoff: a run that starts in a state whose
voice-activity state is `Speech` or in which the ready predicate is false, and
after each call of which the voice-activity state is `Speech`, reports ready
exactly at the calls after which the frame count has reached
`max_frame_num_`. -/
theorem forced_cutoff_aux (E : Engines σ α) (calls : List (Nat × List Int)) :
    ∀ (s : MfccCommander σ α) (outs : List (MfccCommander σ α × FeedResult)),
      (s.vad_state_ = VadState.Speech ∨ s.can_fetch = false) →
      MfccCommander.feedAll E s calls = some outs →
      (∀ out ∈ outs, out.1.vad_state_ = VadState.Speech) →
      ∀ out ∈ outs, out.1.max_frame_num_ = s.max_frame_num_ ∧
        (out.2.can_fetch = true ↔ s.max_frame_num_ ≤ out.1.frame_count_) := by
  induction calls with
  | nil =>
    intro s outs _ h _
    simp only [MfccCommander.feedAll, Option.some.injEq] at h
    subst h
    intro out hout
    cases hout
  | cons call rest ih =>
    intro s outs hs h hsp
    unfold MfccCommander.feedAll at h
    split at h
    · cases h
    · rename_i out1 hfeed
      simp only [Option.map_eq_some'] at h
      obtain ⟨tail, htail, rfl⟩ := h
      have hv1 : out1.1.vad_state_ = VadState.Speech := hsp out1 (List.mem_cons_self _ _)
      have key : out1.1.max_frame_num_ = s.max_frame_num_ ∧
          (out1.2.can_fetch = true ↔ s.max_frame_num_ ≤ out1.1.frame_count_) := by
        have hiff : ∀ t : MfccCommander σ α, t.vad_state_ = VadState.Speech →
            (t.can_fetch = true ↔ t.max_frame_num_ ≤ t.frame_count_) := by
          intro t ht
          rw [can_fetch_iff, ht]
          constructor
          · rintro (hd | ⟨-, hm⟩)
            · cases hd
            · exact hm
          · intro hm
            exact Or.inr ⟨by decide, hm⟩
        by_cases hr : s.can_fetch = true
        · rw [feedSample_ready E call.1 s call.2 hr] at hfeed
          cases hfeed
          exact ⟨rfl, by simpa [hr] using (hiff s hv1).mp hr⟩
        · have hr' : s.can_fetch = false := by simpa using hr
          obtain ⟨-, h2, -, h4, -⟩ := feedSample_run E call.1 s call.2 out1 hr' hfeed
          refine ⟨h2, ?_⟩
          rw [h4, hiff out1.1 hv1, h2]
      intro out hout
      rcases List.mem_cons.mp hout with rfl | hmem
      · exact key
      · obtain ⟨a1, a2⟩ := ih out1.1 tail (Or.inl hv1) htail
          (fun o ho => hsp o (List.mem_cons_of_mem _ ho)) out hmem
        rw [key.1] at a1 a2
        exact ⟨a1, a2⟩

end BufferLemmas

/-! ### The claims on the segment buffer -/

section BufferClaims

variable {σ α : Type}

/-- C1 (feature-buffer bound).  Take any engines, any commander whose
`max_frame_num_` is not negative, put it in the reset state and make any
finite sequence of `feedSample` / `fetchFeature` / `reset` calls (any frames,
any voice-activity results, any fuel) that returns: the state after the last
call still has the same `max_frame_num_` and its `frame_count_` is at most
`max_frame_num_`.  Every prefix of a call sequence is a call sequence, so the
bound holds after every call. -/
theorem frame_count_le_max_frame_num (E : Engines σ α) (s : MfccCommander σ α)
    (hmax : 0 ≤ s.max_frame_num_) (ops : List BufferOp) (s' : MfccCommander σ α)
    (h : MfccCommander.runOps E (s.reset E) ops = some s') :
    s'.max_frame_num_ = s.max_frame_num_ ∧ s'.frame_count_ ≤ s.max_frame_num_ := by
  obtain ⟨-, r2, -, r4⟩ := reset_fields E s
  obtain ⟨b1, b2⟩ := runOps_bound E ops (s.reset E) s' (by rw [r4]; exact hmax)
    (by rw [r2, r4]; exact hmax) h
  exact ⟨b1.trans r4, by rw [b1, r4] at b2; exact b2⟩

/-- C2 (pre-speech bound).  For every state and every `feedSample` call that
returns: the call does not change `pre_frame_num_`; if the voice-activity
state after the call is below `Speech` the frame count after the call is at
most `pre_frame_num_`; in particular this is so when the call runs the
voice-activity primitive (no template pending) and its result on the frame is
below `Speech`. -/
theorem frame_count_le_pre_frame_num (E : Engines σ α) (fuel : Nat) (s : MfccCommander σ α)
    (data : List Int) (out : MfccCommander σ α × FeedResult)
    (h : s.feedSample E fuel data = some out) :
    out.1.pre_frame_num_ = s.pre_frame_num_ ∧
      (out.1.vad_state_ < VadState.Speech → out.1.frame_count_ ≤ s.pre_frame_num_) ∧
      (s.can_fetch = false → (E.vad_process s.vad_engine_ data).2 < VadState.Speech →
        out.1.frame_count_ ≤ s.pre_frame_num_) := by
  by_cases hr : s.can_fetch = true
  · rw [feedSample_ready E fuel s data hr] at h
    cases h
    refine ⟨rfl, ?_, ?_⟩
    · intro hvad
      rw [can_fetch_iff] at hr
      exfalso
      rcases hr with hd | ⟨hs, -⟩
      · rw [hd] at hvad
        exact absurd hvad (by decide)
      · exact absurd (lt_of_lt_of_le (α := Int) hvad hs) (lt_irrefl _)
    · intro hn
      rw [hr] at hn
      cases hn
  · have hr' : s.can_fetch = false := by simpa using hr
    obtain ⟨h1, -, h3, -, h5, -, -⟩ := feedSample_run E fuel s data out hr' h
    refine ⟨h3, ?_, ?_⟩
    · intro hvad
      rw [← h3]; exact h5 hvad
    · intro _ hvad
      rw [← h3]; exact h5 (by rw [h1]; exact hvad)

/-- C4 (ready predicate).  For every state and every input frame: whenever
`feedSample` returns, the flag it returns is true exactly when, in the state
after the call, the voice-activity state is `Detected`, or it is at least
`Speech` and the frame count has reached `max_frame_num_`; and with
`0 < hop_length <= frame_length` the call does return, given enough fuel. -/
theorem feedSample_can_fetch_iff (E : Engines σ α) (s : MfccCommander σ α) (data : List Int) :
    (∀ (fuel : Nat) (out : MfccCommander σ α × FeedResult),
        s.feedSample E fuel data = some out →
        (out.2.can_fetch = true ↔
          (out.1.vad_state_ = VadState.Detected ∨
            (VadState.Speech ≤ out.1.vad_state_ ∧
              out.1.max_frame_num_ ≤ out.1.frame_count_)))) ∧
      (0 < s.config_.mfcc_config.hop_length →
        s.config_.mfcc_config.hop_length ≤ s.config_.mfcc_config.frame_length →
        ∃ fuel out, s.feedSample E fuel data = some out) := by
  refine ⟨?_, feedSample_returns E s data⟩
  intro fuel out h
  rw [← can_fetch_iff]
  by_cases hr : s.can_fetch = true
  · rw [feedSample_ready E fuel s data hr] at h
    cases h
    simp [hr]
  · have hr' : s.can_fetch = false := by simpa using hr
    obtain ⟨-, -, -, h4, -⟩ := feedSample_run E fuel s data out hr' h
    rw [h4]

/-- C6 (collect when not ready).  For every state in which the ready predicate
is false, `fetchFeature` returns a null feature and the state it leaves is the
state it found, every field included. -/
theorem fetchFeature_not_ready (E : Engines σ α) (s : MfccCommander σ α)
    (hready : ¬ (s.vad_state_ = VadState.Detected ∨
      (VadState.Speech ≤ s.vad_state_ ∧ s.max_frame_num_ ≤ s.frame_count_))) :
    (s.fetchFeature E).2.feature = none ∧ (s.fetchFeature E).1 = s := by
  rw [← can_fetch_iff] at hready
  simp [MfccCommander.fetchFeature, hready]

/-- C7 (feed while a template is pending).  For every state in which the ready
predicate holds, every input frame and every fuel, `feedSample` returns the
state it found, every field included (so the voice-activity engine, the raw
queue, the feature buffer, both lengths and the voice-activity state are
untouched), with `can_fetch = true`. -/
theorem feedSample_pending (E : Engines σ α) (fuel : Nat) (s : MfccCommander σ α)
    (data : List Int)
    (hready : s.vad_state_ = VadState.Detected ∨
      (VadState.Speech ≤ s.vad_state_ ∧ s.max_frame_num_ ≤ s.frame_count_)) :
    s.feedSample E fuel data = some (s, { can_fetch := true }) :=
  feedSample_ready E fuel s data ((can_fetch_iff s).mpr hready)

/-- C3 (forced cutoff).  Start from any state in which the ready predicate is
false and make any run of `feedSample` calls that return and on which the
voice-activity primitive reports `Speech` each time it is run (so the
voice-activity state is `Speech` after every call).  Every call of the run
leaves `max_frame_num_` as it was and returns `can_fetch = true` exactly when
the frame count after that call has reached `max_frame_num_`; hence ready is
reported on the first call at which the count reaches the maximum and on no
earlier call. -/
theorem forced_cutoff (E : Engines σ α) (s : MfccCommander σ α)
    (hready : ¬ (s.vad_state_ = VadState.Detected ∨
      (VadState.Speech ≤ s.vad_state_ ∧ s.max_frame_num_ ≤ s.frame_count_)))
    (calls : List (Nat × List Int)) (outs : List (MfccCommander σ α × FeedResult))
    (h : MfccCommander.feedAll E s calls = some outs)
    (hspeech : ∀ out ∈ outs, out.1.vad_state_ = VadState.Speech) :
    ∀ out ∈ outs, out.1.max_frame_num_ = s.max_frame_num_ ∧
      (out.2.can_fetch = true ↔ s.max_frame_num_ ≤ out.1.frame_count_) := by
  have hr : s.can_fetch = false := by
    rw [← can_fetch_iff] at hready
    simpa using hready
  exact forced_cutoff_aux E calls s outs (Or.inr hr) h hspeech

/-- C5 (collect when ready).  Take a state reached from a reset state with
`max_frame_num_ >= 0` by any sequence of calls, in which the ready predicate
holds.  `fetchFeature` returns the template `create` builds from the feature
buffer and the frame count of that instant: its `frame_num` is the frame
count, its data are the first `frame_count_` frames of `raw_mfcc_`; that
length is at most `max_frame_num_` and equals it when the voice-activity state
is `Speech`.  The state left is `reset()` of the state found: raw queue length
0, frame count 0, voice-activity state `Warmup`. -/
theorem fetchFeature_ready (E : Engines σ α) (s0 : MfccCommander σ α)
    (hmax : 0 ≤ s0.max_frame_num_) (ops : List BufferOp) (s : MfccCommander σ α)
    (hreach : MfccCommander.runOps E (s0.reset E) ops = some s)
    (hready : s.vad_state_ = VadState.Detected ∨
      (VadState.Speech ≤ s.vad_state_ ∧ s.max_frame_num_ ≤ s.frame_count_)) :
    ∃ f : MfccFeature α,
      (s.fetchFeature E).2.feature = some f ∧
      f = createFeature s.raw_mfcc_ s.frame_count_ s.mfcc_engine_.coef_num ∧
      f.frame_num = s.frame_count_ ∧
      f.feature = s.raw_mfcc_.take (s.frame_count_ * s.mfcc_engine_.coef_num).toNat ∧
      f.frame_num ≤ s.max_frame_num_ ∧
      (s.vad_state_ = VadState.Speech → f.frame_num = s.max_frame_num_) ∧
      (s.fetchFeature E).1 = s.reset E ∧
      (s.fetchFeature E).1.raw_length_ = 0 ∧
      (s.fetchFeature E).1.frame_count_ = 0 ∧
      (s.fetchFeature E).1.vad_state_ = VadState.Warmup := by
  obtain ⟨-, r2, -, r4⟩ := reset_fields E s0
  obtain ⟨-, b2⟩ := runOps_bound E ops (s0.reset E) s (by rw [r4]; exact hmax)
    (by rw [r2, r4]; exact hmax) hreach
  have hcf : s.can_fetch = true := (can_fetch_iff s).mpr hready
  refine ⟨createFeature s.raw_mfcc_ s.frame_count_ s.mfcc_engine_.coef_num, ?_, rfl, rfl, rfl,
    ?_, ?_, ?_, ?_, ?_, ?_⟩
  · simp [MfccCommander.fetchFeature, hcf]
  · exact b2
  · intro hv
    show s.frame_count_ = s.max_frame_num_
    rw [hv] at hready
    rcases hready with hd | ⟨-, hm⟩
    · cases hd
    · omega
  · simp [MfccCommander.fetchFeature, hcf]
  · simp [MfccCommander.fetchFeature, hcf, MfccCommander.reset]
  · simp [MfccCommander.fetchFeature, hcf, MfccCommander.reset]
  · simp [MfccCommander.fetchFeature, hcf, MfccCommander.reset]

end BufferClaims

/-! ### The claims at concrete runs -/

section BufferWitnesses

open VadState

/-- C1 at a concrete run: two `Silence` frames, a `Speech` frame that fills
the buffer, a collect, a `Detected` frame and a reset. -/
theorem frame_count_le_max_frame_num_witness :
    (0 : Int) ≤ (demoCommander _ [Silence, Silence, Speech, Detected]).max_frame_num_ ∧
    MfccCommander.runOps scriptedEngines
        ((demoCommander _ [Silence, Silence, Speech, Detected]).reset scriptedEngines)
        [.feed 10 [1, 2], .feed 10 [3, 4], .feed 10 [5, 6], .fetch, .feed 10 [7, 8]] =
      some (demoState _ [] [8, 8, 6, 0] 1 [7, 4, 5] 1 Detected) ∧
    (demoState (List VadState) [] [8, 8, 6, 0] 1 [7, 4, 5] 1 Detected).max_frame_num_ = 3 ∧
    (demoState (List VadState) [] [8, 8, 6, 0] 1 [7, 4, 5] 1 Detected).frame_count_ ≤ 3 :=
  ⟨by decide, by decide,
    frame_count_le_max_frame_num scriptedEngines
      (demoCommander _ [Silence, Silence, Speech, Detected]) (by decide)
      [.feed 10 [1, 2], .feed 10 [3, 4], .feed 10 [5, 6], .fetch, .feed 10 [7, 8]]
      (demoState _ [] [8, 8, 6, 0] 1 [7, 4, 5] 1 Detected) (by decide)⟩

/-- C2 at a concrete call: the second `Silence` frame extracts two more
frames (three in all) and the trim brings the count back to the budget 1. -/
theorem frame_count_le_pre_frame_num_witness :
    (demoState _ [Silence, Speech] [2, 2, 0, 0] 1 [1, 0, 0] 1 Silence).feedSample
        scriptedEngines 10 [3, 4] =
      some (demoState _ [Speech] [4, 4, 4, 0] 1 [3, 2, 3] 1 Silence, { can_fetch := false }) ∧
    (demoState (List VadState) [Speech] [4, 4, 4, 0] 1 [3, 2, 3] 1 Silence).pre_frame_num_ = 1 ∧
    (demoState (List VadState) [Speech] [4, 4, 4, 0] 1 [3, 2, 3] 1 Silence).frame_count_ ≤ 1 :=
  ⟨by decide,
    (frame_count_le_pre_frame_num scriptedEngines 10
      (demoState _ [Silence, Speech] [2, 2, 0, 0] 1 [1, 0, 0] 1 Silence) [3, 4]
      (demoState _ [Speech] [4, 4, 4, 0] 1 [3, 2, 3] 1 Silence, { can_fetch := false })
      (by decide)).1,
    (frame_count_le_pre_frame_num scriptedEngines 10
      (demoState _ [Silence, Speech] [2, 2, 0, 0] 1 [1, 0, 0] 1 Silence) [3, 4]
      (demoState _ [Speech] [4, 4, 4, 0] 1 [3, 2, 3] 1 Silence, { can_fetch := false })
      (by decide)).2.2 (by decide) (by decide)⟩

/-- C3 at a concrete run: with `Speech` on the two frames the primitive sees,
the buffer of 3 frames is full after the second call, which is the first to
report ready; the third call finds the template pending. -/
theorem forced_cutoff_witness :
    MfccCommander.feedAll scriptedEngines (demoCommander _ [Speech, Speech, Detected])
        [(10, [1, 2]), (10, [3, 4]), (10, [5, 6])] =
      some [(demoState _ [Speech, Detected] [2, 2, 0, 0] 1 [1, 0, 0] 1 Speech,
          { can_fetch := false }),
        (demoState _ [Detected] [4, 4, 4, 0] 1 [1, 2, 3] 3 Speech, { can_fetch := true }),
        (demoState _ [Detected] [4, 4, 4, 0] 1 [1, 2, 3] 3 Speech, { can_fetch := true })] ∧
    ((demoState (List VadState) [Speech, Detected] [2, 2, 0, 0] 1 [1, 0, 0] 1 Speech
          ).max_frame_num_ = 3 ∧
      (({ can_fetch := false } : FeedResult).can_fetch = true ↔
        (3 : Int) ≤
          (demoState (List VadState) [Speech, Detected] [2, 2, 0, 0] 1 [1, 0, 0] 1 Speech
            ).frame_count_)) ∧
    ((demoState (List VadState) [Detected] [4, 4, 4, 0] 1 [1, 2, 3] 3 Speech).max_frame_num_ = 3 ∧
      (({ can_fetch := true } : FeedResult).can_fetch = true ↔
        (3 : Int) ≤
          (demoState (List VadState) [Detected] [4, 4, 4, 0] 1 [1, 2, 3] 3 Speech).frame_count_)) :=
  ⟨by decide,
    forced_cutoff scriptedEngines (demoCommander _ [Speech, Speech, Detected]) (by decide)
      [(10, [1, 2]), (10, [3, 4]), (10, [5, 6])]
      [(demoState _ [Speech, Detected] [2, 2, 0, 0] 1 [1, 0, 0] 1 Speech, { can_fetch := false }),
        (demoState _ [Detected] [4, 4, 4, 0] 1 [1, 2, 3] 3 Speech, { can_fetch := true }),
        (demoState _ [Detected] [4, 4, 4, 0] 1 [1, 2, 3] 3 Speech, { can_fetch := true })]
      (by decide) (by decide)
      (demoState _ [Speech, Detected] [2, 2, 0, 0] 1 [1, 0, 0] 1 Speech, { can_fetch := false })
      (by decide),
    forced_cutoff scriptedEngines (demoCommander _ [Speech, Speech, Detected]) (by decide)
      [(10, [1, 2]), (10, [3, 4]), (10, [5, 6])]
      [(demoState _ [Speech, Detected] [2, 2, 0, 0] 1 [1, 0, 0] 1 Speech, { can_fetch := false }),
        (demoState _ [Detected] [4, 4, 4, 0] 1 [1, 2, 3] 3 Speech, { can_fetch := true }),
        (demoState _ [Detected] [4, 4, 4, 0] 1 [1, 2, 3] 3 Speech, { can_fetch := true })]
      (by decide) (by decide)
      (demoState _ [Detected] [4, 4, 4, 0] 1 [1, 2, 3] 3 Speech, { can_fetch := true })
      (by decide)⟩

/-- C4 at a concrete call: the `Speech` frame that fills the buffer returns
`can_fetch = true`. -/
theorem feedSample_can_fetch_iff_witness :
    (demoState _ [Speech] [4, 4, 4, 0] 1 [3, 2, 3] 1 Silence).feedSample
        scriptedEngines 10 [5, 6] =
      some (demoState _ [] [6, 6, 6, 0] 1 [3, 4, 5] 3 Speech, { can_fetch := true }) ∧
    (({ can_fetch := true } : FeedResult).can_fetch = true ↔
      ((demoState (List VadState) [] [6, 6, 6, 0] 1 [3, 4, 5] 3 Speech).vad_state_ = Detected ∨
        (Speech ≤ (demoState (List VadState) [] [6, 6, 6, 0] 1 [3, 4, 5] 3 Speech).vad_state_ ∧
          (demoState (List VadState) [] [6, 6, 6, 0] 1 [3, 4, 5] 3 Speech).max_frame_num_ ≤
            (demoState (List VadState) [] [6, 6, 6, 0] 1 [3, 4, 5] 3 Speech).frame_count_))) ∧
    ∃ fuel out, (demoState _ [Speech] [4, 4, 4, 0] 1 [3, 2, 3] 1 Silence).feedSample
        scriptedEngines fuel [5, 6] = some out :=
  ⟨by decide,
    (feedSample_can_fetch_iff scriptedEngines
      (demoState _ [Speech] [4, 4, 4, 0] 1 [3, 2, 3] 1 Silence) [5, 6]).1 10
      (demoState _ [] [6, 6, 6, 0] 1 [3, 4, 5] 3 Speech, { can_fetch := true }) (by decide),
    (feedSample_can_fetch_iff scriptedEngines
      (demoState _ [Speech] [4, 4, 4, 0] 1 [3, 2, 3] 1 Silence) [5, 6]).2
      (by decide) (by decide)⟩

/-- C5 at a concrete run: after two `Silence` frames and the `Speech` frame
that fills the buffer, the collected template holds the 3 frames `3, 4, 5` and
the buffer is reset. -/
theorem fetchFeature_ready_witness :
    MfccCommander.runOps scriptedEngines
        ((demoCommander _ [Silence, Silence, Speech]).reset scriptedEngines)
        [.feed 10 [1, 2], .feed 10 [3, 4], .feed 10 [5, 6]] =
      some (demoState _ [] [6, 6, 6, 0] 1 [3, 4, 5] 3 Speech) ∧
    ∃ f : MfccFeature Nat,
      ((demoState (List VadState) [] [6, 6, 6, 0] 1 [3, 4, 5] 3 Speech).fetchFeature
          scriptedEngines).2.feature = some f ∧
      f = createFeature [3, 4, 5] 3 1 ∧
      f.frame_num = 3 ∧
      f.feature = [3, 4, 5] ∧
      f.frame_num ≤ 3 ∧
      (Speech = Speech → f.frame_num = 3) ∧
      ((demoState (List VadState) [] [6, 6, 6, 0] 1 [3, 4, 5] 3 Speech).fetchFeature
          scriptedEngines).1 =
        (demoState (List VadState) [] [6, 6, 6, 0] 1 [3, 4, 5] 3 Speech).reset scriptedEngines ∧
      ((demoState (List VadState) [] [6, 6, 6, 0] 1 [3, 4, 5] 3 Speech).fetchFeature
          scriptedEngines).1.raw_length_ = 0 ∧
      ((demoState (List VadState) [] [6, 6, 6, 0] 1 [3, 4, 5] 3 Speech).fetchFeature
          scriptedEngines).1.frame_count_ = 0 ∧
      ((demoState (List VadState) [] [6, 6, 6, 0] 1 [3, 4, 5] 3 Speech).fetchFeature
          scriptedEngines).1.vad_state_ = Warmup :=
  ⟨by decide,
    fetchFeature_ready scriptedEngines (demoCommander _ [Silence, Silence, Speech]) (by decide)
      [.feed 10 [1, 2], .feed 10 [3, 4], .feed 10 [5, 6]]
      (demoState _ [] [6, 6, 6, 0] 1 [3, 4, 5] 3 Speech) (by decide) (by decide)⟩

/-- C6 at a concrete state: one frame gathered under `Silence`, not ready. -/
theorem fetchFeature_not_ready_witness :
    ((demoState _ [Speech] [4, 4, 4, 0] 1 [3, 2, 3] 1 Silence).fetchFeature
        scriptedEngines).2.feature = none ∧
    ((demoState _ [Speech] [4, 4, 4, 0] 1 [3, 2, 3] 1 Silence).fetchFeature scriptedEngines).1 =
      demoState _ [Speech] [4, 4, 4, 0] 1 [3, 2, 3] 1 Silence :=
  fetchFeature_not_ready scriptedEngines
    (demoState _ [Speech] [4, 4, 4, 0] 1 [3, 2, 3] 1 Silence) (by decide)

/-- C7 at a concrete state: the buffer is full under `Speech`, and a further
frame (for which the script holds `Detected`) changes nothing. -/
theorem feedSample_pending_witness :
    (demoState _ [Detected] [6, 6, 6, 0] 1 [3, 4, 5] 3 Speech).feedSample
        scriptedEngines 0 [7, 8] =
      some (demoState _ [Detected] [6, 6, 6, 0] 1 [3, 4, 5] 3 Speech, { can_fetch := true }) :=
  feedSample_pending scriptedEngines 0
    (demoState _ [Detected] [6, 6, 6, 0] 1 [3, 4, 5] 3 Speech) [7, 8] (Or.inr (by decide))

end BufferWitnesses

end cmdvox

/-! ## Properties of the command registry -/

namespace cmdvox

section RegistryLemmas

variable {α : Type}

theorem addCommand_replace (e : MfccCommand α) :
    ∀ (commands : List (MfccCommand α)) (i : Nat) (c : MfccCommand α),
      commands.get? i = some c → c.key = e.key →
      (∀ j c', j < i → commands.get? j = some c' → c'.key ≠ e.key) →
      addCommand commands e = commands.set i e := by
  intro commands
  induction commands with
  | nil => intro i c h; simp at h
  | cons hd tl ih =>
    intro i c hget hkey hfirst
    cases i with
    | zero =>
      simp only [List.get?_cons_zero, Option.some.injEq] at hget
      subst hget
      simp only [MfccCommand.key, Prod.mk.injEq] at hkey
      simp [addCommand, hkey.1, hkey.2]
    | succ n =>
      have hhd : hd.key ≠ e.key := hfirst 0 hd (Nat.succ_pos n) rfl
      have hne : ¬ (hd.info.id = e.info.id ∧ hd.info.name = e.info.name) := by
        rintro ⟨h1, h2⟩
        exact hhd (by simp [MfccCommand.key, h1, h2])
      simp only [addCommand, hne, if_false, List.set_cons_succ, List.cons.injEq, true_and]
      apply ih n c
      · simpa using hget
      · exact hkey
      · intro j c' hj hc'
        exact hfirst (j + 1) c' (Nat.succ_lt_succ hj) (by simpa using hc')

theorem addCommand_append (e : MfccCommand α) :
    ∀ commands : List (MfccCommand α), (∀ c ∈ commands, c.key ≠ e.key) →
      addCommand commands e = commands ++ [e] := by
  intro commands
  induction commands with
  | nil => intro _; rfl
  | cons hd tl ih =>
    intro h
    have hhd : hd.key ≠ e.key := h hd (List.mem_cons_self _ _)
    have hne : ¬ (hd.info.id = e.info.id ∧ hd.info.name = e.info.name) := by
      rintro ⟨h1, h2⟩
      exact hhd (by simp [MfccCommand.key, h1, h2])
    simp only [addCommand, hne, if_false, List.cons_append, List.cons.injEq, true_and]
    exact ih fun c hc => h c (List.mem_cons_of_mem _ hc)

/-- The keys after `add`: unchanged when the key of the new entry is present,
else the new key is appended. -/
theorem addCommand_keys (e : MfccCommand α) :
    ∀ commands : List (MfccCommand α),
      (addCommand commands e).map MfccCommand.key =
        if e.key ∈ commands.map MfccCommand.key then commands.map MfccCommand.key
        else commands.map MfccCommand.key ++ [e.key] := by
  intro commands
  induction commands with
  | nil => simp [addCommand]
  | cons hd tl ih =>
    by_cases hm : hd.info.id = e.info.id ∧ hd.info.name = e.info.name
    · have hk : e.key = hd.key := by simp [MfccCommand.key, hm.1, hm.2]
      simp [addCommand, hm, hk]
    · have hk : ¬ e.key = hd.key := by
        intro h
        simp only [MfccCommand.key, Prod.mk.injEq] at h
        exact hm ⟨h.2.symm, h.1.symm⟩
      simp only [addCommand, hm, if_false, List.map_cons, List.mem_cons, hk, false_or, ih]
      split <;> simp

theorem addCommand_unique (e : MfccCommand α) (commands : List (MfccCommand α))
    (h : UniqueKeys commands) : UniqueKeys (addCommand commands e) := by
  unfold UniqueKeys at *
  rw [addCommand_keys]
  split
  · exact h
  · rename_i hn
    rw [List.nodup_append]
    refine ⟨h, List.nodup_singleton _, ?_⟩
    intro a ha hb
    simp only [List.mem_singleton] at hb
    subst hb
    exact hn ha

theorem removeLoop_sublist (name : String) (id : Int) (fuel : Nat) :
    ∀ (commands : List (MfccCommand α)) (it : Nat) (out : List (MfccCommand α)),
      removeLoop name id fuel commands it = some out → out.Sublist commands := by
  induction fuel with
  | zero => intro commands it out h; simp [removeLoop] at h
  | succ n ih =>
    intro commands it out h
    unfold removeLoop at h
    split at h
    · cases h; exact List.Sublist.refl _
    · split at h
      · split at h
        · exact (ih _ _ _ h).trans (List.eraseIdx_sublist _ _)
        · exact ih _ _ _ h
      · exact ih _ _ _ h

theorem modifyInfoCommands_keys_mem (name : String) (id : Int) (info : CommandInfo) :
    ∀ (commands : List (MfccCommand α)) (k : String × Int),
      k ∈ (modifyInfoCommands name id info commands).map MfccCommand.key →
      k ∈ commands.map MfccCommand.key ∨ k = (info.name, info.id) := by
  intro commands
  induction commands with
  | nil => intro k h; simp [modifyInfoCommands] at h
  | cons hd tl ih =>
    intro k h
    by_cases hm : hd.info.name = name ∧ hd.info.id = id
    · simp only [modifyInfoCommands, hm, and_self, if_true, List.map_cons, List.mem_cons] at h
      rcases h with h | h
      · right; rw [h]; rfl
      · left; simp only [List.map_cons, List.mem_cons]; right; exact h
    · simp only [modifyInfoCommands, hm, if_false, List.map_cons, List.mem_cons] at h
      rcases h with h | h
      · left; simp [h]
      · rcases ih k h with h' | h'
        · left; simp only [List.map_cons, List.mem_cons]; right; exact h'
        · right; exact h'

theorem modifyInfoCommands_unique (name : String) (id : Int) (info : CommandInfo) :
    ∀ commands : List (MfccCommand α), UniqueKeys commands →
      ((info.name = name ∧ info.id = id) ∨ ∀ c ∈ commands, c.key ≠ (info.name, info.id)) →
      UniqueKeys (modifyInfoCommands name id info commands) := by
  intro commands
  induction commands with
  | nil => intro _ _; simp [modifyInfoCommands, UniqueKeys]
  | cons hd tl ih =>
    intro hu hk
    unfold UniqueKeys at hu
    simp only [List.map_cons, List.nodup_cons] at hu
    obtain ⟨hhd, htl⟩ := hu
    by_cases hm : hd.info.name = name ∧ hd.info.id = id
    · simp only [modifyInfoCommands, hm, and_self, if_true, UniqueKeys, List.map_cons,
        List.nodup_cons]
      refine ⟨?_, htl⟩
      rcases hk with hk | hk
      · have : (info.name, info.id) = hd.key := by
          simp [MfccCommand.key, hk.1, hk.2, hm.1, hm.2]
        show MfccCommand.key { hd with info := info } ∉ _
        simp only [MfccCommand.key]
        rw [this]; exact hhd
      · intro hmem
        obtain ⟨c, hc, hck⟩ := List.mem_map.mp hmem
        exact hk c (List.mem_cons_of_mem _ hc) hck
    · simp only [modifyInfoCommands, hm, if_false, UniqueKeys, List.map_cons, List.nodup_cons]
      have hk' : (info.name = name ∧ info.id = id) ∨
          ∀ c ∈ tl, c.key ≠ (info.name, info.id) := by
        rcases hk with hk | hk
        · exact Or.inl hk
        · exact Or.inr fun c hc => hk c (List.mem_cons_of_mem _ hc)
      refine ⟨?_, ih htl hk'⟩
      intro hmem
      rcases modifyInfoCommands_keys_mem name id info tl _ hmem with h | h
      · exact hhd h
      · rcases hk with hk | hk
        · apply hm
          simp only [MfccCommand.key, Prod.mk.injEq] at h
          exact ⟨h.1.trans hk.1, h.2.trans hk.2⟩
        · exact hk hd (List.mem_cons_self _ _) h

end RegistryLemmas
end cmdvox

namespace cmdvox

section RegistryClaims

variable {σ α : Type}

theorem runRegistryOps_unique (ops : List (RegistryOp α)) :
    ∀ commands out : List (MfccCommand α), UniqueKeys commands →
      keepsKeysAlong commands ops → runRegistryOps commands ops = some out → UniqueKeys out := by
  induction ops with
  | nil =>
    intro commands out hu _ h
    simp only [runRegistryOps, Option.some.injEq] at h
    subst h; exact hu
  | cons op rest ih =>
    intro commands out hu hk h
    unfold runRegistryOps at h
    unfold keepsKeysAlong at hk
    obtain ⟨hop, hrest⟩ := hk
    split at h
    · cases h
    · rename_i commands' happ
      rw [happ] at hrest
      refine ih commands' out ?_ hrest h
      cases op with
      | add command =>
        simp only [applyRegistryOp, Option.some.injEq] at happ
        subst happ
        exact addCommand_unique command commands hu
      | remove fuel name id =>
        simp only [applyRegistryOp] at happ
        exact List.Nodup.sublist ((removeLoop_sublist name id fuel _ _ _ happ).map _) hu
      | modifyInfo name id info =>
        simp only [applyRegistryOp, Option.some.injEq] at happ
        subst happ
        exact modifyInfoCommands_unique name id info commands hu hop
      | clear =>
        simp only [applyRegistryOp, Option.some.injEq] at happ
        subst happ
        simp [UniqueKeys]

/-- C8 (insert with replace).  For every commander and entry `e`: if slot `i`
is the first whose entry has the `(name, id)` of `e`, the registry after
`add(e)` is the old one with slot `i` set to `e` (same length, info and
feature of `e` in that slot, every other slot as before); if no entry has that
key, it is the old registry with `e` appended at the end.  In particular two
entries with the same `(name, id)` added in turn to an empty registry leave
exactly the second one, thresholds included. -/
theorem add_replaces_or_appends (s : MfccCommander σ α) (e : MfccCommand α) :
    (∀ (i : Nat) (c : MfccCommand α), s.commands.get? i = some c → c.key = e.key →
        (∀ j c', j < i → s.commands.get? j = some c' → c'.key ≠ e.key) →
        (s.add e).commands = s.commands.set i e) ∧
      ((∀ c ∈ s.commands, c.key ≠ e.key) → (s.add e).commands = s.commands ++ [e]) ∧
      (∀ e1 e2 : MfccCommand α, s.commands = [] → e1.key = e2.key →
        ((s.add e1).add e2).commands = [e2]) := by
  refine ⟨?_, ?_, ?_⟩
  · intro i c hget hkey hfirst
    exact addCommand_replace e s.commands i c hget hkey hfirst
  · intro h
    exact addCommand_append e s.commands h
  · intro e1 e2 hs hk
    simp only [MfccCommand.key, Prod.mk.injEq] at hk
    simp [MfccCommander.add, hs, addCommand, hk.1, hk.2]

/-- C8 at concrete registries: a replace in the middle slot, an append, and
the two-thresholds case on the empty registry. -/
theorem add_replaces_or_appends_witness :
    (({ demoCommander Unit () with
          commands := [demoCommand "on" 1 10, demoCommand "off" 1 20, demoCommand "on" 2 30] }
        ).add (demoCommand "off" 1 99)).commands =
      [demoCommand "on" 1 10, demoCommand "off" 1 99, demoCommand "on" 2 30] ∧
    (({ demoCommander Unit () with
          commands := [demoCommand "on" 1 10, demoCommand "on" 2 30] }
        ).add (demoCommand "off" 1 99)).commands =
      [demoCommand "on" 1 10, demoCommand "on" 2 30, demoCommand "off" 1 99] ∧
    (((demoCommander Unit ()).add (demoCommand "on" 1 10)).add (demoCommand "on" 1 20)).commands =
      [demoCommand "on" 1 20] :=
  ⟨(add_replaces_or_appends
      { demoCommander Unit () with
        commands := [demoCommand "on" 1 10, demoCommand "off" 1 20, demoCommand "on" 2 30] }
      (demoCommand "off" 1 99)).1 1 (demoCommand "off" 1 20) rfl rfl
      (by
        intro j c' hj hget
        obtain rfl : j = 0 := by omega
        injection hget with hc
        subst hc
        decide),
    (add_replaces_or_appends
      { demoCommander Unit () with commands := [demoCommand "on" 1 10, demoCommand "on" 2 30] }
      (demoCommand "off" 1 99)).2.1 (by decide),
    (add_replaces_or_appends (demoCommander Unit ()) (demoCommand "on" 1 10)).2.2
      (demoCommand "on" 1 10) (demoCommand "on" 1 20) rfl rfl⟩

/-- C9 as stated fails: `add("a", 0)`, `add("b", 0)` and then
`modifyInfo("a", 0, info)` with `info` carrying the key `("b", 0)` leave two
entries with the key `("b", 0)`. -/
theorem unique_keys_counterexample :
    runRegistryOps ([] : List (MfccCommand Nat))
        [.add (demoCommand "a" 0 10), .add (demoCommand "b" 0 20),
          .modifyInfo "a" 0 { name := "b", id := 0, threshold := 30, path := "" }] =
      some [demoCommand "b" 0 30, demoCommand "b" 0 20] ∧
    ¬ UniqueKeys [demoCommand "b" 0 30, demoCommand "b" 0 20] := by
  decide

/-- C9, amended (key uniqueness).  Starting from the empty registry, after
every finite sequence of `add`, `remove`, `modifyInfo` and `clear` calls that
returns, in which every `modifyInfo(name, id, info)` is made with an `info`
that carries the key `(name, id)` itself or a key no entry of the registry
holds at that moment, the registry contains at most one entry for each
`(name, id)` pair. -/
theorem unique_keys_of_keepsKeys (ops : List (RegistryOp α))
    (commands : List (MfccCommand α)) (hkeys : keepsKeysAlong [] ops)
    (h : runRegistryOps [] ops = some commands) : UniqueKeys commands :=
  runRegistryOps_unique ops [] commands (by simp [UniqueKeys]) hkeys h

/-- C9, amended, at a concrete sequence: a replacing `add`, a `modifyInfo`
that keeps its key, one that moves to a free key, and a `remove`. -/
theorem unique_keys_of_keepsKeys_witness :
    runRegistryOps ([] : List (MfccCommand Nat))
        [.add (demoCommand "a" 0 10), .add (demoCommand "b" 0 20), .add (demoCommand "a" 0 11),
          .modifyInfo "a" 0 { name := "a", id := 0, threshold := 30, path := "p" },
          .modifyInfo "b" 0 { name := "c", id := 5, threshold := 40, path := "q" },
          .add (demoCommand "a" 1 50),
          .remove 10 "a" (-1)] =
      some [{ info := { name := "a", id := 0, threshold := 30, path := "p" }, feature := none },
        demoCommand "a" 1 50] ∧
    UniqueKeys
      [{ info := { name := "a", id := 0, threshold := 30, path := "p" }, feature := none },
        demoCommand "a" 1 50] :=
  ⟨by decide,
    unique_keys_of_keepsKeys
      [.add (demoCommand "a" 0 10), .add (demoCommand "b" 0 20), .add (demoCommand "a" 0 11),
        .modifyInfo "a" 0 { name := "a", id := 0, threshold := 30, path := "p" },
        .modifyInfo "b" 0 { name := "c", id := 5, threshold := 40, path := "q" },
        .add (demoCommand "a" 1 50),
        .remove 10 "a" (-1)]
      _
      (by
        refine ⟨trivial, trivial, trivial, Or.inl ⟨rfl, rfl⟩, Or.inr ?_, trivial, trivial, trivial⟩
        decide)
      (by decide)⟩

/-- C10 at a failing input: on the registry `[("a", 1), ("b", 1)]` the call
`remove("a")` (wildcard id `-1`) returns with `("a", 1)` kept and `("b", 1)`
erased, whereas the registry the claim describes is `[("b", 1)]`. -/
theorem remove_erases_other_names :
    ((({ demoCommander Unit () with
            commands := [demoCommand "a" 1 10, demoCommand "b" 1 10] } : MfccCommander Unit Nat
          ).remove 5 "a" (-1)).map fun s => s.commands) =
      some [demoCommand "a" 1 10] ∧
    removeSpec "a" (-1) [demoCommand "a" 1 10, demoCommand "b" 1 10] = [demoCommand "b" 1 10] := by
  decide

end RegistryClaims
end cmdvox

/-! ## Properties of the matcher -/

namespace cmdvox

section MatcherLemmas

variable {σ α : Type}

/-- What the scan of `detect` computes when every command has a feature: it
returns; the running minimum never grows; either the running pair is returned
as it was, or the pair of an entry `k` of the list that qualifies, lies
strictly below the old minimum and strictly below every qualifying entry
before it; and the returned minimum is at most the distance of every
qualifying entry. -/
theorem detectLoop_spec (E : Engines σ α) (f : MfccFeature α) :
    ∀ (cs : List (MfccCommand α)) (i : Int) (best : Int × Nat),
      (∀ c ∈ cs, c.feature ≠ none) →
      ∃ out : Int × Nat, detectLoop E (some f) cs i best = .ok out ∧
        out.2 ≤ best.2 ∧
        (out = best ∨
          ∃ (k : Nat) (c : MfccCommand α) (g : MfccFeature α),
            cs.get? k = some c ∧ c.feature = some g ∧ out.1 = i + k ∧
            out.2 = E.calcDTW f g ∧ out.2 < c.info.threshold ∧ out.2 < best.2 ∧
            ∀ (j : Nat) (cj : MfccCommand α) (gj : MfccFeature α), j < k →
              cs.get? j = some cj → cj.feature = some gj →
              E.calcDTW f gj < cj.info.threshold → out.2 < E.calcDTW f gj) ∧
        (∀ c ∈ cs, ∀ g, c.feature = some g → E.calcDTW f g < c.info.threshold →
          best.2 ≤ E.calcDTW f g ∨ out.2 ≤ E.calcDTW f g) := by
  intro cs
  induction cs with
  | nil =>
    intro i best _
    exact ⟨best, rfl, le_refl _, Or.inl rfl, fun c hc => absurd hc (List.not_mem_nil c)⟩
  | cons c rest ih =>
    intro i best hfeat
    have hrest : ∀ c' ∈ rest, c'.feature ≠ none := fun c' hc' =>
      hfeat c' (List.mem_cons_of_mem _ hc')
    obtain ⟨g, hg⟩ : ∃ g, c.feature = some g :=
      Option.ne_none_iff_exists'.mp (hfeat c (List.mem_cons_self _ _))
    by_cases hcond : E.calcDTW f g < best.2 ∧ E.calcDTW f g < c.info.threshold
    · obtain ⟨out, hout, hle, hsel, hmin⟩ := ih (i + 1) (i, E.calcDTW f g) hrest
      refine ⟨out, ?_, ?_, ?_, ?_⟩
      · simp only [detectLoop, hg, hcond, and_self, if_true]
        exact hout
      · exact le_trans hle (le_of_lt hcond.1)
      · right
        rcases hsel with hsel | ⟨k, ck, gk, hk, hgk, hidx, hd, hthr, hlt, hfirst⟩
        · refine ⟨0, c, g, rfl, hg, ?_, ?_, ?_, ?_, ?_⟩
          · rw [hsel]; simp
          · rw [hsel]
          · rw [hsel]; exact hcond.2
          · rw [hsel]; exact hcond.1
          · intro j _ _ hj; exact absurd hj (Nat.not_lt_zero j)
        · refine ⟨k + 1, ck, gk, by simpa using hk, hgk, ?_, hd, hthr, ?_, ?_⟩
          · rw [hidx]; push_cast; ring
          · exact lt_trans hlt hcond.1
          · intro j cj gj hj hcj hgj hq
            cases j with
            | zero =>
              simp only [List.get?_cons_zero, Option.some.injEq] at hcj
              subst hcj
              rw [hg] at hgj
              cases hgj
              exact hlt
            | succ j' =>
              exact hfirst j' cj gj (Nat.lt_of_succ_lt_succ hj) (by simpa using hcj) hgj hq
      · intro c' hc' g' hg' hq
        rcases List.mem_cons.mp hc' with rfl | hmem
        · rw [hg] at hg'
          cases hg'
          right; exact hle
        · rcases hmin c' hmem g' hg' hq with h | h
          · right; exact le_trans hle h
          · right; exact h
    · obtain ⟨out, hout, hle, hsel, hmin⟩ := ih (i + 1) best hrest
      refine ⟨out, ?_, hle, ?_, ?_⟩
      · simp only [detectLoop, hg, hcond, if_false]
        exact hout
      · rcases hsel with hsel | ⟨k, ck, gk, hk, hgk, hidx, hd, hthr, hlt, hfirst⟩
        · exact Or.inl hsel
        · right
          refine ⟨k + 1, ck, gk, by simpa using hk, hgk, ?_, hd, hthr, hlt, ?_⟩
          · rw [hidx]; push_cast; ring
          · intro j cj gj hj hcj hgj hq
            cases j with
            | zero =>
              simp only [List.get?_cons_zero, Option.some.injEq] at hcj
              subst hcj
              rw [hg] at hgj
              cases hgj
              have : best.2 ≤ E.calcDTW f g := by
                by_contra hlt'
                exact hcond ⟨not_le.mp hlt', hq⟩
              exact lt_of_lt_of_le hlt this
            | succ j' =>
              exact hfirst j' cj gj (Nat.lt_of_succ_lt_succ hj) (by simpa using hcj) hgj hq
      · intro c' hc' g' hg' hq
        rcases List.mem_cons.mp hc' with rfl | hmem
        · rw [hg] at hg'
          cases hg'
          left
          by_contra hlt'
          exact hcond ⟨not_le.mp hlt', hq⟩
        · exact hmin c' hmem g' hg' hq

/-- A `feedSample` call that returns reports the ready predicate of the state
it leaves and does not touch the registry. -/
theorem feedSample_flag_commands (E : Engines σ α) (fuel : Nat) (s : MfccCommander σ α)
    (data : List Int) (fed : MfccCommander σ α × FeedResult)
    (h : s.feedSample E fuel data = some fed) :
    fed.2.can_fetch = fed.1.can_fetch ∧ fed.1.commands = s.commands := by
  by_cases hr : s.can_fetch = true
  · rw [feedSample_ready E fuel s data hr] at h
    cases h
    exact ⟨hr.symm, rfl⟩
  · have hr' : s.can_fetch = false := by simpa using hr
    rw [feedSample_eq E fuel s data hr'] at h
    simp only [Option.map_eq_some'] at h
    obtain ⟨s3, hloop, rfl⟩ := h
    have hc := (extractLoop_fields E fuel _ _ hloop).2.2.2.2.2
    have hp : (s.feedPush E data).commands = s.commands := by
      unfold MfccCommander.feedPush
      simp only
      split <;> rfl
    refine ⟨rfl, ?_⟩
    simp only
    split
    · rw [(trim_fields s3).2.2.2.2.2.2.2, hc, hp]
    · rw [hc, hp]

/-- `detect` after a feed that reports ready: the buffer is collected and the
registry scanned against the collected template. -/
theorem detect_eq_of_ready (E : Engines σ α) (fuel : Nat) (s : MfccCommander σ α)
    (data : List Int) (result : DetectResult) (fed : MfccCommander σ α × FeedResult)
    (hfeed : s.feedSample E fuel data = some fed) (hready : fed.2.can_fetch = true) :
    s.detect E fuel data result =
      match detectLoop E
          (some (createFeature fed.1.raw_mfcc_ fed.1.frame_count_ fed.1.mfcc_engine_.coef_num))
          s.commands 0 (-1, UINT32_MAX) with
      | .error e => .error e
      | .ok best =>
        if best.1 ≥ 0 then
          match s.commands.get? best.1.toNat with
          | none => .error Failure.badIndex
          | some command =>
            .ok (fed.1.reset E,
              { command_name := command.info.name, id := command.info.id, score := best.2 },
              true)
        else .ok (fed.1.reset E, result, false) := by
  obtain ⟨hflag, hcmd⟩ := feedSample_flag_commands E fuel s data fed hfeed
  have hcf : fed.1.can_fetch = true := by rw [← hflag]; exact hready
  have hfetch : fed.1.fetchFeature E = (fed.1.reset E, FetchResult.mk (some
      (createFeature fed.1.raw_mfcc_ fed.1.frame_count_ fed.1.mfcc_engine_.coef_num))) := by
    simp [MfccCommander.fetchFeature, hcf]
  have hrc : (fed.1.reset E).commands = s.commands := by
    rw [← hcmd]; rfl
  unfold MfccCommander.detect
  simp only [hfeed, hready, if_true, hfetch, hrc]
  split
  · rfl
  · rename_i best hbest
    by_cases hb : best.1 ≥ 0
    · simp only [hb, decide_True, if_true]
    · simp only [hb, decide_False, Bool.false_eq_true, if_false]

/-- The matcher after a ready feed, with every feature present and every
threshold a `uint32_t`: either no entry qualifies and `detect` returns false
leaving the caller's result alone, or it returns true with the name, the id
and the distance of an entry `k` that qualifies, whose distance is strictly
below that of every qualifying entry before it and at most that of every
qualifying entry. -/
theorem detect_ready_spec (E : Engines σ α) (fuel : Nat) (s : MfccCommander σ α)
    (data : List Int) (result : DetectResult) (fed : MfccCommander σ α × FeedResult)
    (hfeed : s.feedSample E fuel data = some fed) (hready : fed.2.can_fetch = true)
    (hfeat : ∀ c ∈ s.commands, c.feature ≠ none)
    (hthr : ∀ c ∈ s.commands, c.info.threshold ≤ UINT32_MAX) :
    (s.detect E fuel data result = .ok (fed.1.reset E, result, false) ∧
        ∀ c ∈ s.commands, ¬ Qualifies E
          (createFeature fed.1.raw_mfcc_ fed.1.frame_count_ fed.1.mfcc_engine_.coef_num) c) ∨
      ∃ (k : Nat) (c : MfccCommand α) (g : MfccFeature α),
        s.commands.get? k = some c ∧ c.feature = some g ∧
        E.calcDTW
            (createFeature fed.1.raw_mfcc_ fed.1.frame_count_ fed.1.mfcc_engine_.coef_num) g <
          c.info.threshold ∧
        s.detect E fuel data result =
          .ok (fed.1.reset E,
            { command_name := c.info.name, id := c.info.id,
              score := E.calcDTW
                (createFeature fed.1.raw_mfcc_ fed.1.frame_count_ fed.1.mfcc_engine_.coef_num)
                g },
            true) ∧
        (∀ (j : Nat) (cj : MfccCommand α) (gj : MfccFeature α), j < k →
          s.commands.get? j = some cj → cj.feature = some gj →
          E.calcDTW
              (createFeature fed.1.raw_mfcc_ fed.1.frame_count_ fed.1.mfcc_engine_.coef_num) gj <
            cj.info.threshold →
          E.calcDTW
              (createFeature fed.1.raw_mfcc_ fed.1.frame_count_ fed.1.mfcc_engine_.coef_num) g <
            E.calcDTW
              (createFeature fed.1.raw_mfcc_ fed.1.frame_count_ fed.1.mfcc_engine_.coef_num)
              gj) ∧
        ∀ c' ∈ s.commands, ∀ g', c'.feature = some g' →
          E.calcDTW
              (createFeature fed.1.raw_mfcc_ fed.1.frame_count_ fed.1.mfcc_engine_.coef_num) g' <
            c'.info.threshold →
          E.calcDTW
              (createFeature fed.1.raw_mfcc_ fed.1.frame_count_ fed.1.mfcc_engine_.coef_num) g ≤
            E.calcDTW
              (createFeature fed.1.raw_mfcc_ fed.1.frame_count_ fed.1.mfcc_engine_.coef_num)
              g' := by
  rw [detect_eq_of_ready E fuel s data result fed hfeed hready]
  generalize createFeature fed.1.raw_mfcc_ fed.1.frame_count_ fed.1.mfcc_engine_.coef_num = f
  obtain ⟨out, hout, -, hsel, hmin⟩ := detectLoop_spec E f s.commands 0 (-1, UINT32_MAX) hfeat
  rw [hout]
  rcases hsel with hsel | ⟨k, c, g, hk, hg, hidx, hd, hlt, -, hfirst⟩
  · left
    subst hsel
    refine ⟨by simp, ?_⟩
    rintro c hc ⟨g, hg, hq⟩
    have hbound := hthr c hc
    rcases hmin c hc g hg hq with h | h <;> simp only at h <;> omega
  · right
    refine ⟨k, c, g, hk, hg, by rw [← hd]; exact hlt, ?_, ?_, ?_⟩
    · have hnn : out.1 ≥ 0 := by rw [hidx]; omega
      have hto : out.1.toNat = k := by rw [hidx]; simp
      simp only [hnn, if_true, hto, hk, hd]
    · intro j cj gj hj hcj hgj hq
      rw [← hd]; exact hfirst j cj gj hj hcj hgj hq
    · intro c' hc' g' hg' hq
      rw [← hd]
      have hbound := hthr c' hc'
      rcases hmin c' hc' g' hg' hq with h | h
      · simp only at h; omega
      · exact h

end MatcherLemmas


end cmdvox

namespace cmdvox

section MatcherClaims

variable {σ α : Type}

/-- `detect` after a feed that does not report ready returns false and hands
back the state of the feed and the caller's result. -/
theorem detect_eq_of_not_ready (E : Engines σ α) (fuel : Nat) (s : MfccCommander σ α)
    (data : List Int) (result : DetectResult) (fed : MfccCommander σ α × FeedResult)
    (hfeed : s.feedSample E fuel data = some fed) (hready : fed.2.can_fetch = false) :
    s.detect E fuel data result = .ok (fed.1, result, false) := by
  unfold MfccCommander.detect
  simp only [hfeed, hready, Bool.false_eq_true, if_false]

/-- C13 (matcher correctness).  For every commander: (1) whenever the feed of
`detect` reports ready, every command has a feature and every threshold is a
`uint32_t`, `detect` returns, and with `f` the collected template it returns
true exactly when some entry qualifies (its distance to `f` is strictly below
its own threshold); when it returns true, the reported name and id are those
of a qualifying entry, the reported score is that entry's distance, which is
below its threshold and at most the distance of every qualifying entry;
(2) with an empty registry every `detect` call that returns, returns false. -/
theorem detect_matches_iff (E : Engines σ α) (s : MfccCommander σ α) :
    (∀ (fuel : Nat) (data : List Int) (result : DetectResult)
        (fed : MfccCommander σ α × FeedResult),
        s.feedSample E fuel data = some fed → fed.2.can_fetch = true →
        (∀ c ∈ s.commands, c.feature ≠ none) →
        (∀ c ∈ s.commands, c.info.threshold ≤ UINT32_MAX) →
        ∃ (after : MfccCommander σ α) (res : DetectResult) (found : Bool),
          s.detect E fuel data result = .ok (after, res, found) ∧
          (found = true ↔ ∃ c ∈ s.commands, Qualifies E fed.1.collected c) ∧
          (found = true →
            ∃ c ∈ s.commands, ∃ g, c.feature = some g ∧
              res.command_name = c.info.name ∧ res.id = c.info.id ∧
              res.score = E.calcDTW fed.1.collected g ∧ res.score < c.info.threshold ∧
              ∀ c' ∈ s.commands, ∀ g', c'.feature = some g' →
                E.calcDTW fed.1.collected g' < c'.info.threshold →
                res.score ≤ E.calcDTW fed.1.collected g')) ∧
      (s.commands = [] →
        ∀ (fuel : Nat) (data : List Int) (result : DetectResult)
          (out : MfccCommander σ α × DetectResult × Bool),
          s.detect E fuel data result = .ok out → out.2.2 = false) := by
  constructor
  · intro fuel data result fed hfeed hready hfeat hthr
    rcases detect_ready_spec E fuel s data result fed hfeed hready hfeat hthr with
      ⟨hdet, hnone⟩ | ⟨k, c, g, hk, hg, hq, hdet, -, hmin⟩
    · refine ⟨_, _, _, hdet, ?_, ?_⟩
      · constructor
        · intro h; cases h
        · rintro ⟨c, hc, hq⟩
          exact absurd hq (hnone c hc)
      · intro h; cases h
    · have hmem : c ∈ s.commands := List.get?_mem hk
      refine ⟨_, _, _, hdet, ?_, ?_⟩
      · constructor
        · intro _
          exact ⟨c, hmem, g, hg, hq⟩
        · intro _; rfl
      · intro _
        exact ⟨c, hmem, g, hg, rfl, rfl, rfl, hq, hmin⟩
  · intro hempty fuel data result out hdet
    cases hfeed : s.feedSample E fuel data with
    | none =>
      unfold MfccCommander.detect at hdet
      simp only [hfeed] at hdet
      cases hdet
    | some fed =>
      by_cases hready : fed.2.can_fetch = true
      · rcases detect_ready_spec E fuel s data result fed hfeed hready
            (by rw [hempty]; intro c hc; cases hc) (by rw [hempty]; intro c hc; cases hc) with
          ⟨hd, -⟩ | ⟨k, c, g, hk, -⟩
        · rw [hd] at hdet
          cases hdet
          rfl
        · rw [hempty] at hk
          simp at hk
      · have hready' : fed.2.can_fetch = false := by simpa using hready
        rw [detect_eq_of_not_ready E fuel s data result fed hfeed hready'] at hdet
        cases hdet
        rfl

/-- C13 at a concrete call: the template `3, 6, 7` (sum 16) against entries
with coefficient sums 5, 9 and 9 and thresholds 10: distances 11, 7 and 7, so
"b" is reported with score 7; and an empty registry reports nothing. -/
theorem detect_matches_iff_witness :
    demoMatchState.detect matchEngines 10 [7, 8] { command_name := "", id := 0, score := 0 } =
      .ok (demoMatchFed.reset matchEngines, { command_name := "b", id := 1, score := 7 }, true) ∧
    (∃ (after : MfccCommander (List VadState) Nat) (res : DetectResult) (found : Bool),
      demoMatchState.detect matchEngines 10 [7, 8] { command_name := "", id := 0, score := 0 } =
        .ok (after, res, found) ∧
      (found = true ↔ ∃ c ∈ demoMatchState.commands, Qualifies matchEngines demoMatchFed.collected c) ∧
      (found = true →
        ∃ c ∈ demoMatchState.commands, ∃ g, c.feature = some g ∧
          res.command_name = c.info.name ∧ res.id = c.info.id ∧
          res.score = matchEngines.calcDTW demoMatchFed.collected g ∧
          res.score < c.info.threshold ∧
          ∀ c' ∈ demoMatchState.commands, ∀ g', c'.feature = some g' →
            matchEngines.calcDTW demoMatchFed.collected g' < c'.info.threshold →
            res.score ≤ matchEngines.calcDTW demoMatchFed.collected g')) ∧
    (({ demoMatchState with commands := [] } : MfccCommander (List VadState) Nat).detect
        matchEngines 10 [7, 8] { command_name := "", id := 0, score := 0 } =
      .ok (({ demoMatchFed with commands := [] } : MfccCommander (List VadState) Nat).reset
        matchEngines, { command_name := "", id := 0, score := 0 }, false)) ∧
    (false = false) :=
  ⟨rfl,
    (detect_matches_iff matchEngines demoMatchState).1 10 [7, 8]
      { command_name := "", id := 0, score := 0 } (demoMatchFed, { can_fetch := true })
      (by decide) rfl (by decide) (by decide),
    rfl,
    (detect_matches_iff matchEngines
      ({ demoMatchState with commands := [] } : MfccCommander (List VadState) Nat)).2 rfl 10
      [7, 8] { command_name := "", id := 0, score := 0 }
      (({ demoMatchFed with commands := [] } : MfccCommander (List VadState) Nat).reset
        matchEngines, { command_name := "", id := 0, score := 0 }, false) rfl⟩

/-- C14 (matcher tie-break).  Whenever the feed of `detect` reports ready,
every command has a feature, every threshold is a `uint32_t` and `detect`
returns true, the reported name, id and score are those of an entry at some
index `k` of the registry that qualifies with the lowest qualifying distance,
every qualifying entry before `k` lies strictly farther, and so every
qualifying entry at that same lowest distance sits at index `k` or later: the
first one in registry order is the one reported. -/
theorem detect_reports_first (E : Engines σ α) (fuel : Nat) (s : MfccCommander σ α)
    (data : List Int) (result : DetectResult) (fed : MfccCommander σ α × FeedResult)
    (hfeed : s.feedSample E fuel data = some fed) (hready : fed.2.can_fetch = true)
    (hfeat : ∀ c ∈ s.commands, c.feature ≠ none)
    (hthr : ∀ c ∈ s.commands, c.info.threshold ≤ UINT32_MAX)
    (after : MfccCommander σ α) (res : DetectResult)
    (hdet : s.detect E fuel data result = .ok (after, res, true)) :
    ∃ (k : Nat) (c : MfccCommand α) (g : MfccFeature α),
      s.commands.get? k = some c ∧ c.feature = some g ∧
      res.command_name = c.info.name ∧ res.id = c.info.id ∧
      res.score = E.calcDTW fed.1.collected g ∧ res.score < c.info.threshold ∧
      (∀ c' ∈ s.commands, ∀ g', c'.feature = some g' →
        E.calcDTW fed.1.collected g' < c'.info.threshold →
        res.score ≤ E.calcDTW fed.1.collected g') ∧
      (∀ (j : Nat) (cj : MfccCommand α) (gj : MfccFeature α), j < k →
        s.commands.get? j = some cj → cj.feature = some gj →
        E.calcDTW fed.1.collected gj < cj.info.threshold →
        res.score < E.calcDTW fed.1.collected gj) ∧
      (∀ (j : Nat) (cj : MfccCommand α) (gj : MfccFeature α),
        s.commands.get? j = some cj → cj.feature = some gj →
        E.calcDTW fed.1.collected gj < cj.info.threshold →
        E.calcDTW fed.1.collected gj = res.score → k ≤ j) := by
  rcases detect_ready_spec E fuel s data result fed hfeed hready hfeat hthr with
    ⟨hd, -⟩ | ⟨k, c, g, hk, hg, hq, hd, hfirst, hmin⟩
  · rw [hd] at hdet
    cases hdet
  · rw [hd] at hdet
    cases hdet
    refine ⟨k, c, g, hk, hg, rfl, rfl, rfl, hq, hmin, hfirst, ?_⟩
    intro j cj gj hcj hgj hqj heq
    by_contra hlt
    have := hfirst j cj gj (not_le.mp hlt) hcj hgj hqj
    simp only [MfccCommander.collected] at heq
    omega

/-- C14 at a concrete call: "b" (index 1) and "c" (index 2) both lie at the
lowest qualifying distance 7, and "b" is reported. -/
theorem detect_reports_first_witness :
    ∃ (k : Nat) (c : MfccCommand Nat) (g : MfccFeature Nat),
      demoMatchState.commands.get? k = some c ∧ c.feature = some g ∧
      "b" = c.info.name ∧ (1 : Int) = c.info.id ∧
      7 = matchEngines.calcDTW demoMatchFed.collected g ∧ 7 < c.info.threshold ∧
      (∀ c' ∈ demoMatchState.commands, ∀ g', c'.feature = some g' →
        matchEngines.calcDTW demoMatchFed.collected g' < c'.info.threshold →
        7 ≤ matchEngines.calcDTW demoMatchFed.collected g') ∧
      (∀ (j : Nat) (cj : MfccCommand Nat) (gj : MfccFeature Nat), j < k →
        demoMatchState.commands.get? j = some cj → cj.feature = some gj →
        matchEngines.calcDTW demoMatchFed.collected gj < cj.info.threshold →
        7 < matchEngines.calcDTW demoMatchFed.collected gj) ∧
      (∀ (j : Nat) (cj : MfccCommand Nat) (gj : MfccFeature Nat),
        demoMatchState.commands.get? j = some cj → cj.feature = some gj →
        matchEngines.calcDTW demoMatchFed.collected gj < cj.info.threshold →
        matchEngines.calcDTW demoMatchFed.collected gj = 7 → k ≤ j) :=
  detect_reports_first matchEngines 10 demoMatchState [7, 8]
    { command_name := "", id := 0, score := 0 } (demoMatchFed, { can_fetch := true })
    (by decide) rfl (by decide) (by decide) (demoMatchFed.reset matchEngines)
    { command_name := "b", id := 1, score := 7 } rfl

/-- C15 at a failing input: `loadSettings` of a settings file whose only
record names a feature file that cannot be loaded stores an entry with a null
feature, and on a ready buffer the scan of `detect` then dereferences that
null feature. -/
theorem detect_null_feature :
    (({ demoMatchState with commands := [] } : MfccCommander (List VadState) Nat).loadSettings
        (echoCodec [demoCommand "a" 1 10])
        (({ demoMatchState with commands := [demoCommand "a" 1 10] } :
          MfccCommander (List VadState) Nat).saveSettings emptyFiles "settings.json")
        "settings.json").commands = [demoCommand "a" 1 10] ∧
    (demoCommand "a" 1 10).feature = none ∧
    ({ demoMatchState with commands := [demoCommand "a" 1 10] } :
        MfccCommander (List VadState) Nat).detect matchEngines 10 [7, 8]
        { command_name := "", id := 0, score := 0 } =
      .error Failure.nullFeature :=
  ⟨by decide, rfl, rfl⟩

end MatcherClaims

end cmdvox

namespace cmdvox

section RegistryClaims2

variable {σ α : Type}

theorem modifyInfoCommands_replace (name : String) (id : Int) (info : CommandInfo) :
    ∀ (commands : List (MfccCommand α)) (i : Nat) (c : MfccCommand α),
      commands.get? i = some c → c.key = (name, id) →
      (∀ j c', j < i → commands.get? j = some c' → c'.key ≠ (name, id)) →
      modifyInfoCommands name id info commands =
        commands.set i { info := info, feature := c.feature } := by
  intro commands
  induction commands with
  | nil => intro i c h; simp at h
  | cons hd tl ih =>
    intro i c hget hkey hfirst
    cases i with
    | zero =>
      simp only [List.get?_cons_zero, Option.some.injEq] at hget
      subst hget
      simp only [MfccCommand.key, Prod.mk.injEq] at hkey
      simp [modifyInfoCommands, hkey.1, hkey.2]
    | succ n =>
      have hhd : hd.key ≠ (name, id) := hfirst 0 hd (Nat.succ_pos n) rfl
      have hne : ¬ (hd.info.name = name ∧ hd.info.id = id) := by
        rintro ⟨h1, h2⟩
        exact hhd (by simp [MfccCommand.key, h1, h2])
      simp only [modifyInfoCommands, hne, if_false, List.set_cons_succ, List.cons.injEq,
        true_and]
      apply ih n c
      · simpa using hget
      · exact hkey
      · intro j c' hj hc'
        exact hfirst (j + 1) c' (Nat.succ_lt_succ hj) (by simpa using hc')

theorem modifyInfoCommands_absent (name : String) (id : Int) (info : CommandInfo) :
    ∀ commands : List (MfccCommand α), (∀ c ∈ commands, c.key ≠ (name, id)) →
      modifyInfoCommands name id info commands = commands := by
  intro commands
  induction commands with
  | nil => intro _; rfl
  | cons hd tl ih =>
    intro h
    have hhd : hd.key ≠ (name, id) := h hd (List.mem_cons_self _ _)
    have hne : ¬ (hd.info.name = name ∧ hd.info.id = id) := by
      rintro ⟨h1, h2⟩
      exact hhd (by simp [MfccCommand.key, h1, h2])
    simp only [modifyInfoCommands, hne, if_false, List.cons.injEq, true_and]
    exact ih fun c hc => h c (List.mem_cons_of_mem _ hc)

/-- C11 at a failing input: on the registry `[("b", 2)]` the loop of
`remove("a", 1)` never ends: whatever the fuel, the call does not return.
The entry has another name, so the outer test holds, and its id is neither
wildcarded nor equal, so the iterator is neither erased at nor advanced. -/
theorem remove_never_returns :
    ∀ fuel : Nat,
      ({ demoCommander Unit () with commands := [demoCommand "b" 2 10] } :
        MfccCommander Unit Nat).remove fuel "a" 1 = none := by
  intro fuel
  have h : ∀ n : Nat, removeLoop "a" 1 n [demoCommand "b" 2 10] 0 = none := by
    intro n
    induction n with
    | zero => rfl
    | succ n ih => simpa [removeLoop, demoCommand] using ih
  simp [MfccCommander.remove, h fuel]

/-- C12 (update semantics).  For every commander, name, id and `info`: if slot
`i` is the first whose entry has the key `(name, id)`, the registry after
`modifyInfo(name, id, info)` is the old one with slot `i` holding `info` and
the old feature of that slot (same length and order, every other entry as
before); if no entry has that key the registry is unchanged.  No other member
of the commander changes. -/
theorem modifyInfo_replaces_info (s : MfccCommander σ α) (name : String) (id : Int)
    (info : CommandInfo) :
    (∀ (i : Nat) (c : MfccCommand α), s.commands.get? i = some c → c.key = (name, id) →
        (∀ j c', j < i → s.commands.get? j = some c' → c'.key ≠ (name, id)) →
        (s.modifyInfo name id info).commands =
          s.commands.set i { info := info, feature := c.feature }) ∧
      ((∀ c ∈ s.commands, c.key ≠ (name, id)) → s.modifyInfo name id info = s) ∧
      (s.modifyInfo name id info).commands.length = s.commands.length ∧
      s.modifyInfo name id info = { s with commands := (s.modifyInfo name id info).commands } := by
  refine ⟨?_, ?_, ?_, rfl⟩
  · intro i c hget hkey hfirst
    exact modifyInfoCommands_replace name id info s.commands i c hget hkey hfirst
  · intro h
    simp only [MfccCommander.modifyInfo, modifyInfoCommands_absent name id info s.commands h]
  · by_cases h : ∀ c ∈ s.commands, c.key ≠ (name, id)
    · simp only [MfccCommander.modifyInfo, modifyInfoCommands_absent name id info s.commands h]
    · have hlen : ∀ cs : List (MfccCommand α),
          (modifyInfoCommands name id info cs).length = cs.length := by
        intro cs
        induction cs with
        | nil => rfl
        | cons hd tl ih =>
          by_cases hm : hd.info.name = name ∧ hd.info.id = id
          · simp [modifyInfoCommands, hm]
          · simp [modifyInfoCommands, hm, ih]
      exact hlen s.commands

/-- C12 at concrete registries: the second of three entries is the first with
the key `("off", 1)` and receives the new info, keeping its feature; a key
that is absent changes nothing. -/
theorem modifyInfo_replaces_info_witness :
    (({ demoCommander Unit () with
          commands := [demoFeatureCommand "on" 1 10 5, demoFeatureCommand "off" 1 20 6,
            demoFeatureCommand "off" 1 30 7] } : MfccCommander Unit Nat).modifyInfo "off" 1
          { name := "stop", id := 4, threshold := 99, path := "p" }).commands =
      [demoFeatureCommand "on" 1 10 5,
        { info := { name := "stop", id := 4, threshold := 99, path := "p" },
          feature := (demoFeatureCommand "off" 1 20 6).feature },
        demoFeatureCommand "off" 1 30 7] ∧
    ({ demoCommander Unit () with
          commands := [demoFeatureCommand "on" 1 10 5, demoFeatureCommand "off" 1 20 6] } :
        MfccCommander Unit Nat).modifyInfo "off" 2
          { name := "stop", id := 4, threshold := 99, path := "p" } =
      { demoCommander Unit () with
        commands := [demoFeatureCommand "on" 1 10 5, demoFeatureCommand "off" 1 20 6] } :=
  ⟨(modifyInfo_replaces_info
      ({ demoCommander Unit () with
          commands := [demoFeatureCommand "on" 1 10 5, demoFeatureCommand "off" 1 20 6,
            demoFeatureCommand "off" 1 30 7] } : MfccCommander Unit Nat) "off" 1
      { name := "stop", id := 4, threshold := 99, path := "p" }).1 1
      (demoFeatureCommand "off" 1 20 6) rfl rfl
      (by
        intro j c' hj hget
        obtain rfl : j = 0 := by omega
        injection hget with hc
        subst hc
        decide),
    (modifyInfo_replaces_info
      ({ demoCommander Unit () with
          commands := [demoFeatureCommand "on" 1 10 5, demoFeatureCommand "off" 1 20 6] } :
        MfccCommander Unit Nat) "off" 2
      { name := "stop", id := 4, threshold := 99, path := "p" }).2.1 (by decide)⟩

end RegistryClaims2

section ResetClaims

variable {σ α : Type}

/-- C17 (reset idempotence).  When the `reset` of the voice-activity primitive
is idempotent, so is `reset()` of the commander, on every state: a second
reset leaves the state of the first, which has raw queue length 0, frame count
0 and voice-activity state `Warmup`, and the configuration, the registry, the
capacities and both memory blocks of the state before. -/
theorem reset_idempotent (E : Engines σ α)
    (hvad : ∀ st, E.vad_reset (E.vad_reset st) = E.vad_reset st) (s : MfccCommander σ α) :
    (s.reset E).reset E = s.reset E ∧
      (s.reset E).raw_length_ = 0 ∧ (s.reset E).frame_count_ = 0 ∧
      (s.reset E).vad_state_ = VadState.Warmup ∧
      (s.reset E).config_ = s.config_ ∧ (s.reset E).commands = s.commands ∧
      (s.reset E).max_frame_num_ = s.max_frame_num_ ∧
      (s.reset E).pre_frame_num_ = s.pre_frame_num_ ∧
      (s.reset E).raw_max_length_ = s.raw_max_length_ ∧
      (s.reset E).raw_queue_ = s.raw_queue_ ∧ (s.reset E).raw_mfcc_ = s.raw_mfcc_ := by
  refine ⟨?_, rfl, rfl, rfl, rfl, rfl, rfl, rfl, rfl, rfl, rfl⟩
  simp only [MfccCommander.reset, hvad]

/-- C17 at a concrete state: a buffer holding three frames under `Speech`. -/
theorem reset_idempotent_witness :
    ((demoState _ [VadState.Detected] [6, 6, 6, 0] 1 [3, 4, 5] 3 VadState.Speech).reset
        scriptedEngines).reset scriptedEngines =
      demoState _ [VadState.Detected] [6, 6, 6, 0] 0 [3, 4, 5] 0 VadState.Warmup :=
  (reset_idempotent scriptedEngines (fun _ => rfl)
    (demoState _ [VadState.Detected] [6, 6, 6, 0] 1 [3, 4, 5] 3 VadState.Speech)).1

end ResetClaims

end cmdvox

/-! ## Further properties of the segment buffer -/

namespace cmdvox

section BufferLemmas2

variable {σ α : Type}

theorem extractStep_raw_max_length (E : Engines σ α) (s : MfccCommander σ α) :
    (s.extractStep E).raw_max_length_ = s.raw_max_length_ := by
  unfold MfccCommander.extractStep
  by_cases h : s.frame_count_ < s.max_frame_num_ <;> simp [h]

/-- With `0 < hop_length` a pass of the extraction loop never lengthens the
raw queue and keeps a non-negative length non-negative. -/
theorem extractStep_raw_length_le (E : Engines σ α) (s : MfccCommander σ α)
    (hH : 0 < s.config_.mfcc_config.hop_length) :
    (s.extractStep E).raw_length_ ≤ s.raw_length_ ∧
      (0 ≤ s.raw_length_ → 0 ≤ (s.extractStep E).raw_length_) := by
  rw [extractStep_raw_length]
  split <;> constructor <;> intros <;> omega

/-- The extraction loop leaves fewer than `frame_length` samples, keeps
`raw_max_length_`, and with `0 < hop_length` never lengthens the raw queue and
keeps its length non-negative. -/
theorem extractLoop_raw_length (E : Engines σ α) (fuel : Nat) :
    ∀ s s' : MfccCommander σ α, MfccCommander.extractLoop E fuel s = some s' →
      s'.raw_length_ < s.config_.mfcc_config.frame_length ∧
        s'.raw_max_length_ = s.raw_max_length_ ∧
        (0 < s.config_.mfcc_config.hop_length →
          s'.raw_length_ ≤ s.raw_length_ ∧ (0 ≤ s.raw_length_ → 0 ≤ s'.raw_length_)) := by
  induction fuel with
  | zero => intro s s' h; simp [MfccCommander.extractLoop] at h
  | succ n ih =>
    intro s s' h
    unfold MfccCommander.extractLoop at h
    by_cases hc : s.raw_length_ ≥ s.config_.mfcc_config.frame_length
    · rw [if_pos hc] at h
      obtain ⟨h1, h2, h3⟩ := ih _ _ h
      have hcfg := (extractStep_fields E s).2.2.1
      rw [hcfg] at h1 h3
      refine ⟨h1, h2.trans (extractStep_raw_max_length E s), ?_⟩
      intro hH
      obtain ⟨a1, a2⟩ := h3 hH
      obtain ⟨b1, b2⟩ := extractStep_raw_length_le E s hH
      exact ⟨le_trans a1 b1, fun h0 => a2 (b2 h0)⟩
    · rw [if_neg hc] at h
      cases h
      exact ⟨by omega, rfl, fun _ => ⟨le_refl _, id⟩⟩

/-- With `0 < hop_length`, however many passes of the loop body are made, the
raw queue is never longer than at the start. -/
theorem extractStep_iterate_raw_length (E : Engines σ α) (k : Nat) :
    ∀ s : MfccCommander σ α, 0 < s.config_.mfcc_config.hop_length →
      ((MfccCommander.extractStep E)^[k] s).raw_length_ ≤ s.raw_length_ := by
  induction k with
  | zero => intro s _; exact le_refl _
  | succ n ih =>
    intro s hH
    rw [Function.iterate_succ_apply]
    have hcfg := (extractStep_fields E s).2.2.1
    exact le_trans (ih (s.extractStep E) (by rw [hcfg]; exact hH))
      (extractStep_raw_length_le E s hH).1

theorem feedPush_raw_length (E : Engines σ α) (s : MfccCommander σ α) (data : List Int) :
    (s.feedPush E data).raw_max_length_ = s.raw_max_length_ ∧
      (s.feedPush E data).frame_count_ = s.frame_count_ ∧
      (s.feedPush E data).raw_mfcc_ = s.raw_mfcc_ ∧
      (s.feedPush E data).pre_frame_num_ = s.pre_frame_num_ ∧
      ((s.feedPush E data).raw_length_ = s.raw_length_ ∨
        (s.feedPush E data).raw_length_ = s.raw_length_ + s.config_.vad_config.frame_length) := by
  unfold MfccCommander.feedPush
  simp only
  split
  · exact ⟨rfl, rfl, rfl, rfl, Or.inr rfl⟩
  · exact ⟨rfl, rfl, rfl, rfl, Or.inl rfl⟩

/-- A `feedSample` call that runs (no template pending) returns the state the
extraction loop leaves, trimmed when the frame is below `Speech` and the
count exceeds the budget. -/
theorem feedSample_out (E : Engines σ α) (fuel : Nat) (s : MfccCommander σ α)
    (data : List Int) (out : MfccCommander σ α × FeedResult)
    (hready : s.can_fetch = false) (h : s.feedSample E fuel data = some out) :
    ∃ s3, MfccCommander.extractLoop E fuel (s.feedPush E data) = some s3 ∧
      (out.1 = s3 ∨
        (out.1 = s3.trim ∧ (E.vad_process s.vad_engine_ data).2 < VadState.Speech ∧
          s3.frame_count_ > s3.pre_frame_num_)) := by
  rw [feedSample_eq E fuel s data hready] at h
  simp only [Option.map_eq_some'] at h
  obtain ⟨s3, hloop, rfl⟩ := h
  refine ⟨s3, hloop, ?_⟩
  simp only
  split
  · rename_i hc
    exact Or.inr ⟨rfl, hc.1, hc.2⟩
  · exact Or.inl rfl

theorem trim_raw_max_length (s : MfccCommander σ α) :
    s.trim.raw_max_length_ = s.raw_max_length_ := by
  simp [MfccCommander.trim]

/-- One call keeps the configuration and `raw_max_length_`, and with
`0 < hop_length <= frame_length` and `0 < vad frame_length` keeps the raw
queue length in `[0, frame_length)`. -/
theorem applyOp_raw_length (E : Engines σ α) (op : BufferOp) (s s' : MfccCommander σ α)
    (hH : 0 < s.config_.mfcc_config.hop_length)
    (hF : s.config_.mfcc_config.hop_length ≤ s.config_.mfcc_config.frame_length)
    (hV : 0 < s.config_.vad_config.frame_length)
    (h0 : 0 ≤ s.raw_length_) (h1 : s.raw_length_ < s.config_.mfcc_config.frame_length)
    (h : s.applyOp E op = some s') :
    s'.config_ = s.config_ ∧ s'.raw_max_length_ = s.raw_max_length_ ∧
      0 ≤ s'.raw_length_ ∧ s'.raw_length_ < s.config_.mfcc_config.frame_length := by
  cases op with
  | feed fuel data =>
    simp only [MfccCommander.applyOp, Option.map_eq_some'] at h
    obtain ⟨out, hout, rfl⟩ := h
    by_cases hr : s.can_fetch = true
    · rw [feedSample_ready E fuel s data hr] at hout
      cases hout
      exact ⟨rfl, rfl, h0, h1⟩
    · have hr' : s.can_fetch = false := by simpa using hr
      obtain ⟨s3, hloop, hout3⟩ := feedSample_out E fuel s data out hr' hout
      have hcfg := feedPush_config E s data
      obtain ⟨p1, -, -, -, p5⟩ := feedPush_raw_length E s data
      obtain ⟨l1, l2, l3⟩ := extractLoop_raw_length E fuel _ _ hloop
      have f3 := (extractLoop_fields E fuel _ _ hloop).2.2.1
      rw [hcfg] at l1 l3 f3
      obtain ⟨-, l4⟩ := l3 hH
      have hpos : 0 ≤ s3.raw_length_ := l4 (by rcases p5 with p5 | p5 <;> omega)
      rcases hout3 with ho | ⟨ho, -, -⟩
      · rw [ho]
        exact ⟨f3, l2.trans p1, hpos, l1⟩
      · rw [ho]
        obtain ⟨-, -, -, -, t5, -, t7, -⟩ := trim_fields s3
        exact ⟨t7.trans f3, (trim_raw_max_length s3).trans (l2.trans p1), by rw [t5]; exact hpos,
          by rw [t5]; exact l1⟩
  | fetch =>
    simp only [MfccCommander.applyOp, Option.some.injEq] at h
    subst h
    unfold MfccCommander.fetchFeature
    by_cases hr : s.can_fetch = true
    · simp only [hr, if_true]
      exact ⟨rfl, rfl, le_refl _, by simp only [MfccCommander.reset]; omega⟩
    · simp only [hr, Bool.false_eq_true, if_false]
      exact ⟨trivial, trivial, h0, h1⟩
  | reset =>
    simp only [MfccCommander.applyOp, Option.some.injEq] at h
    subst h
    exact ⟨rfl, rfl, le_refl _, by simp only [MfccCommander.reset]; omega⟩

theorem runOps_raw_length (E : Engines σ α) (ops : List BufferOp) :
    ∀ s s' : MfccCommander σ α, 0 < s.config_.mfcc_config.hop_length →
      s.config_.mfcc_config.hop_length ≤ s.config_.mfcc_config.frame_length →
      0 < s.config_.vad_config.frame_length →
      0 ≤ s.raw_length_ → s.raw_length_ < s.config_.mfcc_config.frame_length →
      MfccCommander.runOps E s ops = some s' →
      s'.config_ = s.config_ ∧ s'.raw_max_length_ = s.raw_max_length_ ∧
        0 ≤ s'.raw_length_ ∧ s'.raw_length_ < s.config_.mfcc_config.frame_length := by
  induction ops with
  | nil =>
    intro s s' _ _ _ h0 h1 h
    simp only [MfccCommander.runOps, Option.some.injEq] at h
    subst h
    exact ⟨rfl, rfl, h0, h1⟩
  | cons op rest ih =>
    intro s s' hH hF hV h0 h1 h
    unfold MfccCommander.runOps at h
    split at h
    · cases h
    · rename_i t ht
      obtain ⟨a1, a2, a3, a4⟩ := applyOp_raw_length E op s t hH hF hV h0 h1 ht
      obtain ⟨b1, b2, b3, b4⟩ := ih t s' (by rw [a1]; exact hH) (by rw [a1]; exact hF)
        (by rw [a1]; exact hV) a3 (by rw [a1]; exact a4) h
      rw [a1] at b4
      exact ⟨b1.trans a1, b2.trans a2, b3, b4⟩

end BufferLemmas2

section BufferClaims2

variable {σ α : Type}

/-- C16 (raw-queue bound).  Take a configuration with
`0 < hop_length <= frame_length` (MFCC) and `0 < frame_length` (voice
activity), a commander over it with
`raw_max_length_ = 2 * max(vad frame_length, mfcc frame_length)`, and any
state `s'` reached from its reset state by a sequence of `feedSample` /
`fetchFeature` / `reset` calls.  Then `raw_max_length_` is unchanged, the raw
queue length of `s'` lies in `[0, mfcc frame_length)`, hence is at most
`raw_max_length_`; and for every next frame the length right after the push of
`feedSample` is non-negative and at most `raw_max_length_`, as it is after any
number of passes of the extraction loop. -/
theorem raw_length_le_raw_max_length (E : Engines σ α) (s : MfccCommander σ α)
    (hH : 0 < s.config_.mfcc_config.hop_length)
    (hF : s.config_.mfcc_config.hop_length ≤ s.config_.mfcc_config.frame_length)
    (hV : 0 < s.config_.vad_config.frame_length)
    (hcap : s.raw_max_length_ =
      2 * max s.config_.vad_config.frame_length s.config_.mfcc_config.frame_length)
    (ops : List BufferOp) (s' : MfccCommander σ α)
    (hrun : MfccCommander.runOps E (s.reset E) ops = some s') :
    s'.raw_max_length_ = s.raw_max_length_ ∧
      0 ≤ s'.raw_length_ ∧ s'.raw_length_ < s.config_.mfcc_config.frame_length ∧
      s'.raw_length_ ≤ s.raw_max_length_ ∧
      ∀ data : List Int,
        0 ≤ (s'.feedPush E data).raw_length_ ∧
        (s'.feedPush E data).raw_length_ ≤ s.raw_max_length_ ∧
        ∀ k : Nat,
          ((MfccCommander.extractStep E)^[k] (s'.feedPush E data)).raw_length_ ≤
            s.raw_max_length_ := by
  have hr0 : (s.reset E).raw_length_ = 0 := rfl
  have hrc : (s.reset E).config_ = s.config_ := rfl
  obtain ⟨c1, c2, c3, c4⟩ := runOps_raw_length E ops (s.reset E) s' hH hF hV
    (by rw [hr0]) (by rw [hr0, hrc]; omega) hrun
  rw [hrc] at c4
  have c1' : s'.config_ = s.config_ := c1
  have c2' : s'.raw_max_length_ = s.raw_max_length_ := c2
  have hpush : ∀ data : List Int, 0 ≤ (s'.feedPush E data).raw_length_ ∧
      (s'.feedPush E data).raw_length_ ≤ s.raw_max_length_ := by
    intro data
    obtain ⟨-, -, -, -, p5⟩ := feedPush_raw_length E s' data
    rw [c1'] at p5
    rw [hcap]
    rcases p5 with p5 | p5 <;> rw [p5] <;> constructor <;> omega
  refine ⟨c2', c3, c4, by rw [hcap]; omega, ?_⟩
  intro data
  refine ⟨(hpush data).1, (hpush data).2, ?_⟩
  intro k
  exact le_trans (extractStep_iterate_raw_length E k _
    (by rw [feedPush_config, c1']; exact hH)) (hpush data).2

/-- C16 at a concrete run: after two `Silence` frames one sample is queued;
the push of the next frame makes it 3, within the capacity 4. -/
theorem raw_length_le_raw_max_length_witness :
    MfccCommander.runOps scriptedEngines
        ((demoCommander _ [VadState.Silence, VadState.Silence, VadState.Speech]).reset
          scriptedEngines)
        [.feed 10 [1, 2], .feed 10 [3, 4]] =
      some (demoState _ [VadState.Speech] [4, 4, 4, 0] 1 [3, 2, 3] 1 VadState.Silence) ∧
    (demoState (List VadState) [VadState.Speech] [4, 4, 4, 0] 1 [3, 2, 3] 1
        VadState.Silence).raw_length_ ≤ 4 ∧
    ((demoState (List VadState) [VadState.Speech] [4, 4, 4, 0] 1 [3, 2, 3] 1
        VadState.Silence).feedPush scriptedEngines [5, 6]).raw_length_ = 3 ∧
    ((demoState (List VadState) [VadState.Speech] [4, 4, 4, 0] 1 [3, 2, 3] 1
        VadState.Silence).feedPush scriptedEngines [5, 6]).raw_length_ ≤ 4 :=
  ⟨by decide,
    (raw_length_le_raw_max_length scriptedEngines
      (demoCommander _ [VadState.Silence, VadState.Silence, VadState.Speech])
      (by decide) (by decide) (by decide) (by decide) [.feed 10 [1, 2], .feed 10 [3, 4]]
      (demoState _ [VadState.Speech] [4, 4, 4, 0] 1 [3, 2, 3] 1 VadState.Silence)
      (by decide)).2.2.2.1,
    by decide,
    ((raw_length_le_raw_max_length scriptedEngines
      (demoCommander _ [VadState.Silence, VadState.Silence, VadState.Speech])
      (by decide) (by decide) (by decide) (by decide) [.feed 10 [1, 2], .feed 10 [3, 4]]
      (demoState _ [VadState.Speech] [4, 4, 4, 0] 1 [3, 2, 3] 1 VadState.Silence)
      (by decide)).2.2.2.2 [5, 6]).2.1⟩

end BufferClaims2

end cmdvox

namespace cmdvox

section BufferLemmas3

variable {σ α : Type}

/-- A `copy_n` at offset `off` leaves the first `n <= off` cells of the
destination where they are. -/
theorem copy_n_keeps_prefix (src : List α) (k : Nat) (dest : List α) (off n : Nat)
    (hn : n ≤ off) : ∃ t, dest.take n ++ t = copy_n src k dest off := by
  refine ⟨(dest.take off).drop n ++ (src.take k ++ dest.drop (off + k)), ?_⟩
  have h := List.take_append_drop n (dest.take off)
  rw [List.take_take, min_eq_left hn] at h
  unfold copy_n
  rw [← List.append_assoc, h, List.append_assoc]

theorem extractStep_keeps_prefix (E : Engines σ α) (s : MfccCommander σ α) (n : Nat)
    (hn : n ≤ (s.frame_count_ * s.config_.mfcc_config.coef_num).toNat) :
    ∃ t, s.raw_mfcc_.take n ++ t = (s.extractStep E).raw_mfcc_ := by
  unfold MfccCommander.extractStep
  by_cases h : s.frame_count_ < s.max_frame_num_
  · simp only [h, if_true]
    exact copy_n_keeps_prefix _ _ _ _ n hn
  · simp only [h, if_false]
    exact ⟨s.raw_mfcc_.drop n, List.take_append_drop n _⟩

/-- With `0 <= coef_num` the extraction loop leaves the cells of the frames
already counted where they are. -/
theorem extractLoop_keeps_prefix (E : Engines σ α) (fuel : Nat) :
    ∀ (s s' : MfccCommander σ α) (n : Nat), MfccCommander.extractLoop E fuel s = some s' →
      0 ≤ s.config_.mfcc_config.coef_num →
      n ≤ (s.frame_count_ * s.config_.mfcc_config.coef_num).toNat →
      ∃ t, s.raw_mfcc_.take n ++ t = s'.raw_mfcc_ := by
  induction fuel with
  | zero => intro s s' n h; simp [MfccCommander.extractLoop] at h
  | succ m ih =>
    intro s s' n h hcoef hn
    unfold MfccCommander.extractLoop at h
    by_cases hc : s.raw_length_ ≥ s.config_.mfcc_config.frame_length
    · rw [if_pos hc] at h
      obtain ⟨t1, ht1⟩ := extractStep_keeps_prefix E s n hn
      have hcfg := (extractStep_fields E s).2.2.1
      have hfc : s.frame_count_ ≤ (s.extractStep E).frame_count_ := by
        rw [extractStep_frame_count]; split <;> omega
      have hmono : (s.frame_count_ * s.config_.mfcc_config.coef_num).toNat ≤
          ((s.extractStep E).frame_count_ * (s.extractStep E).config_.mfcc_config.coef_num).toNat := by
        rw [hcfg]
        exact Int.toNat_le_toNat (mul_le_mul_of_nonneg_right hfc hcoef)
      have hlen : (s.raw_mfcc_.take n).length ≤ n := by
        rw [List.length_take]; exact min_le_left _ _
      obtain ⟨t2, ht2⟩ := ih (s.extractStep E) s' (s.raw_mfcc_.take n).length h
        (by rw [hcfg]; exact hcoef) (le_trans hlen (le_trans hn hmono))
      refine ⟨t2, ?_⟩
      rw [← ht2, ← ht1, List.take_left']
      rfl
    · rw [if_neg hc] at h
      cases h
      exact ⟨s.raw_mfcc_.drop n, List.take_append_drop n _⟩

/-- A `feedSample` call that runs leaves the frame count at the budget
`pre_frame_num_` (after a trim) or at least where it was. -/
theorem feedSample_frame_count_ge (E : Engines σ α) (fuel : Nat) (s : MfccCommander σ α)
    (data : List Int) (out : MfccCommander σ α × FeedResult)
    (hready : s.can_fetch = false) (h : s.feedSample E fuel data = some out) :
    out.1.frame_count_ = s.pre_frame_num_ ∨ s.frame_count_ ≤ out.1.frame_count_ := by
  obtain ⟨s3, hloop, hout⟩ := feedSample_out E fuel s data out hready h
  obtain ⟨-, p2, -, p4, -⟩ := feedPush_raw_length E s data
  have hpre := (extractLoop_fields E fuel _ _ hloop).2.1
  have hfc := (extractLoop_frame_count E fuel _ _ hloop).1
  rw [p2] at hfc
  rw [p4] at hpre
  rcases hout with ho | ⟨ho, -, -⟩
  · right; rw [ho]; exact hfc
  · left; rw [ho, (trim_fields s3).1, hpre]

/-- The invariant behind the silence-only stream: on a run that starts with no
template pending and after each call of which the voice-activity state is
below `Speech`, no call reports ready, the count never exceeds the budget, and
once it has reached the budget it stays there. -/
theorem silence_run_aux (E : Engines σ α) (calls : List (Nat × List Int)) :
    ∀ (s : MfccCommander σ α) (outs : List (MfccCommander σ α × FeedResult)),
      s.can_fetch = false →
      MfccCommander.feedAll E s calls = some outs →
      (∀ out ∈ outs, out.1.vad_state_ < VadState.Speech) →
      (∀ out ∈ outs, out.2.can_fetch = false ∧ out.1.frame_count_ ≤ s.pre_frame_num_) ∧
        (s.pre_frame_num_ ≤ s.frame_count_ →
          ∀ out ∈ outs, out.1.frame_count_ = s.pre_frame_num_) ∧
        (∀ (i j : Nat) (oi oj : MfccCommander σ α × FeedResult), i ≤ j →
          outs.get? i = some oi → outs.get? j = some oj →
          s.pre_frame_num_ ≤ oi.1.frame_count_ → oj.1.frame_count_ = s.pre_frame_num_) := by
  induction calls with
  | nil =>
    intro s outs _ h _
    simp only [MfccCommander.feedAll, Option.some.injEq] at h
    subst h
    refine ⟨fun out hout => (by cases hout), fun _ out hout => (by cases hout), ?_⟩
    intro i j oi oj _ hi
    simp at hi
  | cons call rest ih =>
    intro s outs hs h hsil
    unfold MfccCommander.feedAll at h
    split at h
    · cases h
    · rename_i out1 hfeed
      simp only [Option.map_eq_some'] at h
      obtain ⟨tail, htail, rfl⟩ := h
      have hv1 : out1.1.vad_state_ < VadState.Speech := hsil out1 (List.mem_cons_self _ _)
      obtain ⟨-, -, h3, h4, h5, -, -⟩ := feedSample_run E call.1 s call.2 out1 hs hfeed
      have hge := feedSample_frame_count_ge E call.1 s call.2 out1 hs hfeed
      have hle : out1.1.frame_count_ ≤ s.pre_frame_num_ := by rw [← h3]; exact h5 hv1
      have hnr : out1.1.can_fetch = false := by
        by_contra hc
        have hc' : out1.1.can_fetch = true := by simpa using hc
        rw [can_fetch_iff] at hc'
        rcases hc' with hd | ⟨hsp, -⟩
        · rw [hd] at hv1
          exact absurd hv1 (by decide)
        · exact absurd (lt_of_lt_of_le (α := Int) hv1 hsp) (lt_irrefl _)
      obtain ⟨t1, t2, t3⟩ := ih out1.1 tail hnr htail
        (fun o ho => hsil o (List.mem_cons_of_mem _ ho))
      rw [h3] at t1 t2 t3
      refine ⟨?_, ?_, ?_⟩
      · intro out hout
        rcases List.mem_cons.mp hout with rfl | hmem
        · exact ⟨by rw [h4]; exact hnr, hle⟩
        · exact t1 out hmem
      · intro hreach out hout
        have h1eq : out1.1.frame_count_ = s.pre_frame_num_ := by
          rcases hge with hge | hge
          · exact hge
          · omega
        rcases List.mem_cons.mp hout with rfl | hmem
        · exact h1eq
        · exact t2 (by rw [h1eq]) out hmem
      · intro i j oi oj hij hi hj hreach
        cases i with
        | zero =>
          simp only [List.get?_cons_zero, Option.some.injEq] at hi
          subst hi
          have h1eq : out1.1.frame_count_ = s.pre_frame_num_ := by omega
          cases j with
          | zero =>
            simp only [List.get?_cons_zero, Option.some.injEq] at hj
            subst hj
            exact h1eq
          | succ j' =>
            simp only [List.get?_cons_succ] at hj
            exact t2 (by rw [h1eq]) oj (List.get?_mem hj)
        | succ i' =>
          cases j with
          | zero => omega
          | succ j' =>
            simp only [List.get?_cons_succ] at hi hj
            exact t3 i' j' oi oj (by omega) hi hj hreach

end BufferLemmas3

section BufferClaims3

variable {σ α : Type}

/-- C19 (no trimming during speech).  For every state with `0 <= coef_num`
and every `feedSample` call that returns with the voice-activity state at
`Speech` or above after it (the result of the primitive, when the call runs
it): the frame count after the call is at least the count before, the cells
of the frames counted before are a prefix of the feature memory after (same
contents, same positions), and when the call runs (no template pending) the
state it returns is the very state the extraction loop leaves, untrimmed. -/
theorem no_trim_during_speech (E : Engines σ α) (fuel : Nat) (s : MfccCommander σ α)
    (data : List Int) (out : MfccCommander σ α × FeedResult)
    (hcoef : 0 ≤ s.config_.mfcc_config.coef_num)
    (h : s.feedSample E fuel data = some out)
    (hvad : VadState.Speech ≤ out.1.vad_state_) :
    s.frame_count_ ≤ out.1.frame_count_ ∧
      (∃ t, s.raw_mfcc_.take (s.frame_count_ * s.config_.mfcc_config.coef_num).toNat ++ t =
        out.1.raw_mfcc_) ∧
      (s.can_fetch = false →
        MfccCommander.extractLoop E fuel (s.feedPush E data) = some out.1) := by
  by_cases hr : s.can_fetch = true
  · rw [feedSample_ready E fuel s data hr] at h
    cases h
    refine ⟨le_refl _, ⟨s.raw_mfcc_.drop _, List.take_append_drop _ _⟩, ?_⟩
    intro hn
    rw [hr] at hn
    cases hn
  · have hr' : s.can_fetch = false := by simpa using hr
    obtain ⟨h1, -, -, -, -, -, h7⟩ := feedSample_run E fuel s data out hr' h
    obtain ⟨s3, hloop, hout⟩ := feedSample_out E fuel s data out hr' h
    have hs3 : out.1 = s3 := by
      rcases hout with ho | ⟨-, hlt, -⟩
      · exact ho
      · rw [h1] at hvad
        exact absurd (lt_of_lt_of_le (α := Int) hlt hvad) (lt_irrefl _)
    obtain ⟨-, p2, p3, -, -⟩ := feedPush_raw_length E s data
    have hcfg := feedPush_config E s data
    obtain ⟨t, ht⟩ := extractLoop_keeps_prefix E fuel (s.feedPush E data) s3
      (s.frame_count_ * s.config_.mfcc_config.coef_num).toNat hloop
      (by rw [hcfg]; exact hcoef) (by rw [hcfg, p2])
    rw [p3] at ht
    exact ⟨h7 hvad, ⟨t, by rw [hs3]; exact ht⟩, fun _ => by rw [hs3]; exact hloop⟩

/-- C19 at a concrete call: one frame `3` is in the buffer, the `Speech`
frame adds two and the first cell still holds `3`. -/
theorem no_trim_during_speech_witness :
    (demoState _ [VadState.Speech] [4, 4, 4, 0] 1 [3, 2, 3] 1 VadState.Silence).feedSample
        scriptedEngines 10 [5, 6] =
      some (demoState _ [] [6, 6, 6, 0] 1 [3, 4, 5] 3 VadState.Speech, { can_fetch := true }) ∧
    (1 : Int) ≤ 3 ∧
    (∃ t, [3] ++ t = [3, 4, 5]) ∧
    MfccCommander.extractLoop scriptedEngines 10
        ((demoState _ [VadState.Speech] [4, 4, 4, 0] 1 [3, 2, 3] 1 VadState.Silence).feedPush
          scriptedEngines [5, 6]) =
      some (demoState _ [] [6, 6, 6, 0] 1 [3, 4, 5] 3 VadState.Speech) :=
  ⟨by decide,
    (no_trim_during_speech scriptedEngines 10
      (demoState _ [VadState.Speech] [4, 4, 4, 0] 1 [3, 2, 3] 1 VadState.Silence) [5, 6]
      (demoState _ [] [6, 6, 6, 0] 1 [3, 4, 5] 3 VadState.Speech, { can_fetch := true })
      (by decide) (by decide) (by decide)).1,
    (no_trim_during_speech scriptedEngines 10
      (demoState _ [VadState.Speech] [4, 4, 4, 0] 1 [3, 2, 3] 1 VadState.Silence) [5, 6]
      (demoState _ [] [6, 6, 6, 0] 1 [3, 4, 5] 3 VadState.Speech, { can_fetch := true })
      (by decide) (by decide) (by decide)).2.1,
    (no_trim_during_speech scriptedEngines 10
      (demoState _ [VadState.Speech] [4, 4, 4, 0] 1 [3, 2, 3] 1 VadState.Silence) [5, 6]
      (demoState _ [] [6, 6, 6, 0] 1 [3, 4, 5] 3 VadState.Speech, { can_fetch := true })
      (by decide) (by decide) (by decide)).2.2 (by decide)⟩

/-- C20 (silence-only stream).  Put any commander in the reset state and make
any run of `feedSample` calls that return and on which the voice-activity
primitive always reports a level below `Speech` (so the voice-activity state
is below `Speech` after every call).  No call returns `can_fetch = true`, the
frame count never exceeds `pre_frame_num_`, and once it has reached
`pre_frame_num_` after some call it equals `pre_frame_num_` after that call and
every later one. -/
theorem silence_only_stream (E : Engines σ α) (s : MfccCommander σ α)
    (calls : List (Nat × List Int)) (outs : List (MfccCommander σ α × FeedResult))
    (h : MfccCommander.feedAll E (s.reset E) calls = some outs)
    (hsil : ∀ out ∈ outs, out.1.vad_state_ < VadState.Speech) :
    (∀ out ∈ outs, out.2.can_fetch = false ∧ out.1.frame_count_ ≤ s.pre_frame_num_) ∧
      (∀ (i j : Nat) (oi oj : MfccCommander σ α × FeedResult), i ≤ j →
        outs.get? i = some oi → outs.get? j = some oj →
        s.pre_frame_num_ ≤ oi.1.frame_count_ → oj.1.frame_count_ = s.pre_frame_num_) := by
  obtain ⟨t1, -, t3⟩ := silence_run_aux E calls (s.reset E) outs
    (by
      have hw : ¬ VadState.Speech ≤ VadState.Warmup := by decide
      simp [MfccCommander.can_fetch, MfccCommander.reset, hw]) h hsil
  exact ⟨t1, t3⟩

/-- C20 at a concrete run: a `Warmup` frame and three `Silence` frames; the
count reaches the budget 1 at the second call and is 1 after the fourth. -/
theorem silence_only_stream_witness :
    MfccCommander.feedAll scriptedEngines
        ((demoCommander _
          [VadState.Warmup, VadState.Silence, VadState.Silence, VadState.Silence]).reset
          scriptedEngines)
        [(10, [1, 2]), (10, [3, 4]), (10, [5, 6]), (10, [7, 8])] = some demoSilenceOuts ∧
    (∀ out ∈ demoSilenceOuts, out.2.can_fetch = false ∧ out.1.frame_count_ ≤ 1) ∧
    (demoState (List VadState) [] [8, 8, 8, 0] 1 [7, 6, 7] 1 VadState.Silence).frame_count_ = 1 :=
  ⟨by decide,
    (silence_only_stream scriptedEngines
      (demoCommander _ [VadState.Warmup, VadState.Silence, VadState.Silence, VadState.Silence])
      [(10, [1, 2]), (10, [3, 4]), (10, [5, 6]), (10, [7, 8])] demoSilenceOuts
      (by decide) (by decide)).1,
    (silence_only_stream scriptedEngines
      (demoCommander _ [VadState.Warmup, VadState.Silence, VadState.Silence, VadState.Silence])
      [(10, [1, 2]), (10, [3, 4]), (10, [5, 6]), (10, [7, 8])] demoSilenceOuts
      (by decide) (by decide)).2 1 3
      (demoState _ [VadState.Silence, VadState.Silence] [4, 4, 0, 0] 1 [3, 0, 0] 1
        VadState.Silence, { can_fetch := false })
      (demoState _ [] [8, 8, 8, 0] 1 [7, 6, 7] 1 VadState.Silence, { can_fetch := false })
      (by decide) rfl rfl (by decide)⟩

end BufferClaims3

end cmdvox

/-! ## Properties of the settings file -/

namespace cmdvox

section SettingsLemmas

variable {σ α : Type}

end SettingsLemmas

section SettingsClaims

variable {σ α : Type}

/-- The text `saveSettings` writes does not determine the registry: names and
paths are written as they are, quotes included, so these two one-entry
registries (ids 1 and 3) are saved as the same text. -/
theorem settingsText_not_injective :
    settingsText
        [({ info := { name := "a", id := 1, threshold := 2,
                      path := "p\", \"id\":3, \"threshold\":4, \"path\":\"q" },
            feature := none } : MfccCommand Nat)] =
      settingsText
        [({ info := { name := "a\", \"id\":1, \"threshold\":2, \"path\":\"p", id := 3,
                      threshold := 4, path := "q" },
            feature := none } : MfccCommand Nat)] ∧
    (1 : Int) ≠ 3 := by
  decide

/-- No reader makes the round trip hold for every registry: the two
registries of `settingsText_not_injective` are saved as the same text, so
whatever the reader and the feature loader do, `clear` and `loadSettings` leave
the same tuples after either, and these cannot be the tuples of both. -/
theorem settings_round_trip_unescaped (C : SettingsCodec Nat) :
    ¬ ((((demoRegistry [demoFileCommand "a" 1 2
                  "p\", \"id\":3, \"threshold\":4, \"path\":\"q"]).clear.loadSettings C
              ((demoRegistry [demoFileCommand "a" 1 2
                  "p\", \"id\":3, \"threshold\":4, \"path\":\"q"]).saveSettings emptyFiles
                "settings.json")
              "settings.json").commands.map fun c => c.info) =
          [{ name := "a", id := 1, threshold := 2,
             path := "p\", \"id\":3, \"threshold\":4, \"path\":\"q" }] ∧
        (((demoRegistry [demoFileCommand "a\", \"id\":1, \"threshold\":2, \"path\":\"p" 3 4
                  "q"]).clear.loadSettings C
              ((demoRegistry [demoFileCommand "a\", \"id\":1, \"threshold\":2, \"path\":\"p" 3 4
                  "q"]).saveSettings emptyFiles "settings.json")
              "settings.json").commands.map fun c => c.info) =
          [{ name := "a\", \"id\":1, \"threshold\":2, \"path\":\"p", id := 3, threshold := 4,
             path := "q" }]) := by
  have htext : settingsText [demoFileCommand "a" 1 2
        "p\", \"id\":3, \"threshold\":4, \"path\":\"q"] =
      settingsText [demoFileCommand "a\", \"id\":1, \"threshold\":2, \"path\":\"p" 3 4 "q"] := by
    decide
  have hsame : (demoRegistry [demoFileCommand "a" 1 2
          "p\", \"id\":3, \"threshold\":4, \"path\":\"q"]).clear.loadSettings C
        ((demoRegistry [demoFileCommand "a" 1 2
          "p\", \"id\":3, \"threshold\":4, \"path\":\"q"]).saveSettings emptyFiles
          "settings.json") "settings.json" =
      (demoRegistry [demoFileCommand "a\", \"id\":1, \"threshold\":2, \"path\":\"p" 3 4
          "q"]).clear.loadSettings C
        ((demoRegistry [demoFileCommand "a\", \"id\":1, \"threshold\":2, \"path\":\"p" 3 4
          "q"]).saveSettings emptyFiles "settings.json") "settings.json" := by
    simp only [MfccCommander.saveSettings, demoRegistry, emptyFiles, if_true, htext]
    rfl
  rintro ⟨h1, h2⟩
  rw [hsame, h2] at h1
  exact absurd h1 (by decide)

end SettingsClaims

end cmdvox

/-! ## Termination of the feed and frame effect of the matcher -/

namespace cmdvox

section FeedTermination

variable {σ α : Type}

/-- The result of the extraction loop does not depend on the fuel that was
enough for it. -/
theorem extractLoop_fuel_unique (E : Engines σ α) (fuel : Nat) :
    ∀ (fuel' : Nat) (s a b : MfccCommander σ α),
      MfccCommander.extractLoop E fuel s = some a →
      MfccCommander.extractLoop E fuel' s = some b → a = b := by
  induction fuel with
  | zero => intro fuel' s a b h; simp [MfccCommander.extractLoop] at h
  | succ n ih =>
    intro fuel' s a b ha hb
    cases fuel' with
    | zero => simp [MfccCommander.extractLoop] at hb
    | succ m =>
      unfold MfccCommander.extractLoop at ha hb
      by_cases hc : s.raw_length_ ≥ s.config_.mfcc_config.frame_length
      · rw [if_pos hc] at ha hb
        exact ih m _ a b ha hb
      · rw [if_neg hc] at ha hb
        cases ha
        cases hb
        rfl

/-- C22 (feed terminates).  For every state `s` whose configuration has
`0 < hop_length <= frame_length` and every input frame: (1) the extraction
loop entered from any state `t` over that configuration ends, with enough
fuel, in a state whose raw queue is shorter than `frame_length`, and that
state is the same for every fuel that is enough; (2) every pass made while
the loop condition holds takes exactly `hop_length` samples off the raw
queue, so the length strictly decreases; (3) `feedSample` returns, and when it
ran the loop (no template pending) the raw queue it leaves is shorter than
`frame_length`. -/
theorem feed_terminates (E : Engines σ α) (s : MfccCommander σ α) (data : List Int)
    (hH : 0 < s.config_.mfcc_config.hop_length)
    (hF : s.config_.mfcc_config.hop_length ≤ s.config_.mfcc_config.frame_length) :
    (∀ t : MfccCommander σ α, t.config_ = s.config_ →
        ∃ fuel t', MfccCommander.extractLoop E fuel t = some t' ∧
          t'.raw_length_ < s.config_.mfcc_config.frame_length ∧
          ∀ fuel' t'', MfccCommander.extractLoop E fuel' t = some t'' → t'' = t') ∧
      (∀ t : MfccCommander σ α, t.config_ = s.config_ →
        s.config_.mfcc_config.frame_length ≤ t.raw_length_ →
        (t.extractStep E).raw_length_ = t.raw_length_ - s.config_.mfcc_config.hop_length ∧
          (t.extractStep E).raw_length_ < t.raw_length_) ∧
      (∃ fuel out, s.feedSample E fuel data = some out ∧
        (s.can_fetch = false → out.1.raw_length_ < s.config_.mfcc_config.frame_length)) := by
  refine ⟨?_, ?_, ?_⟩
  · intro t ht
    obtain ⟨t', ht', hlt⟩ := extractLoop_terminates E
      (t.raw_length_ - t.config_.mfcc_config.frame_length).toNat.succ t
      (by rw [ht]; exact hH) (by rw [ht]; exact hF) (by push_cast; omega)
    refine ⟨_, t', ht', by rw [ht] at hlt; exact hlt, ?_⟩
    intro fuel' t'' h''
    exact extractLoop_fuel_unique E fuel' _ t t'' t' h'' ht'
  · intro t ht hge
    have hlen := extractStep_raw_length E t
    rw [ht] at hlen
    have hnot : ¬ t.raw_length_ < s.config_.mfcc_config.hop_length := by omega
    rw [if_neg hnot] at hlen
    exact ⟨hlen, by omega⟩
  · obtain ⟨fuel, out, hout⟩ := feedSample_returns E s data hH hF
    refine ⟨fuel, out, hout, ?_⟩
    intro hr
    obtain ⟨s3, hloop, ho⟩ := feedSample_out E fuel s data out hr hout
    have hlt := (extractLoop_raw_length E fuel _ _ hloop).1
    rw [feedPush_config] at hlt
    rcases ho with ho | ⟨ho, -, -⟩
    · rw [ho]; exact hlt
    · rw [ho, (trim_fields s3).2.2.2.2.1]; exact hlt

/-- C22 at a concrete call: three samples are queued after the push, the loop
makes two passes and leaves one sample, fewer than the frame length 2. -/
theorem feed_terminates_witness :
    MfccCommander.extractLoop scriptedEngines 3
        ((demoState _ [VadState.Speech] [4, 4, 4, 0] 1 [3, 2, 3] 1 VadState.Silence).feedPush
          scriptedEngines [5, 6]) =
      some (demoState _ [] [6, 6, 6, 0] 1 [3, 4, 5] 3 VadState.Speech) ∧
    (∃ fuel t', MfccCommander.extractLoop scriptedEngines fuel
        ((demoState _ [VadState.Speech] [4, 4, 4, 0] 1 [3, 2, 3] 1 VadState.Silence).feedPush
          scriptedEngines [5, 6]) = some t' ∧
      t'.raw_length_ < 2 ∧
      ∀ fuel' t'', MfccCommander.extractLoop scriptedEngines fuel'
        ((demoState _ [VadState.Speech] [4, 4, 4, 0] 1 [3, 2, 3] 1 VadState.Silence).feedPush
          scriptedEngines [5, 6]) = some t'' → t'' = t') ∧
    ∃ fuel out,
      (demoState _ [VadState.Speech] [4, 4, 4, 0] 1 [3, 2, 3] 1 VadState.Silence).feedSample
        scriptedEngines fuel [5, 6] = some out ∧
      ((demoState _ [VadState.Speech] [4, 4, 4, 0] 1 [3, 2, 3] 1 VadState.Silence).can_fetch =
          false → out.1.raw_length_ < 2) :=
  ⟨by decide,
    (feed_terminates scriptedEngines
      (demoState _ [VadState.Speech] [4, 4, 4, 0] 1 [3, 2, 3] 1 VadState.Silence) [5, 6]
      (by decide) (by decide)).1 _ (by
        unfold MfccCommander.feedPush
        rfl),
    (feed_terminates scriptedEngines
      (demoState _ [VadState.Speech] [4, 4, 4, 0] 1 [3, 2, 3] 1 VadState.Silence) [5, 6]
      (by decide) (by decide)).2.2⟩

end FeedTermination

section DetectEffect

variable {σ α : Type}

/-- C25 (detect consumes the utterance and never edits the registry).  For
every state, frame, fuel and caller's result: (1) whenever `detect` returns,
the registry is as before and, if the flag is false, the caller's result is
untouched; moreover if the feed reported ready the state left is `reset()` of
the state after the feed (raw queue length 0, frame count 0, voice-activity
state `Warmup`) whatever the flag, and if the feed did not report ready the
flag is false, the caller's result is untouched and the state is the one the
feed left; (2) `detect` does return whenever its feed returns and every
command has a feature. -/
theorem detect_frame_effect (E : Engines σ α) (fuel : Nat) (s : MfccCommander σ α)
    (data : List Int) (result : DetectResult) :
    (∀ out : MfccCommander σ α × DetectResult × Bool,
        s.detect E fuel data result = .ok out →
        out.1.commands = s.commands ∧
        (out.2.2 = false → out.2.1 = result) ∧
        ∃ fed, s.feedSample E fuel data = some fed ∧
          (fed.2.can_fetch = true →
            out.1 = fed.1.reset E ∧ out.1.raw_length_ = 0 ∧ out.1.frame_count_ = 0 ∧
              out.1.vad_state_ = VadState.Warmup) ∧
          (fed.2.can_fetch = false →
            out.2.2 = false ∧ out.2.1 = result ∧ out.1 = fed.1)) ∧
      (∀ fed, s.feedSample E fuel data = some fed → (∀ c ∈ s.commands, c.feature ≠ none) →
        ∃ out, s.detect E fuel data result = .ok out) := by
  constructor
  · intro out hdet
    cases hfeed : s.feedSample E fuel data with
    | none =>
      unfold MfccCommander.detect at hdet
      simp only [hfeed] at hdet
      cases hdet
    | some fed =>
      obtain ⟨-, hcmd⟩ := feedSample_flag_commands E fuel s data fed hfeed
      by_cases hready : fed.2.can_fetch = true
      · rw [detect_eq_of_ready E fuel s data result fed hfeed hready] at hdet
        have key : out.1 = fed.1.reset E ∧ (out.2.2 = false → out.2.1 = result) := by
          split at hdet
          · cases hdet
          · split at hdet
            · split at hdet
              · cases hdet
              · cases hdet
                exact ⟨rfl, fun h => by cases h⟩
            · cases hdet
              exact ⟨rfl, fun _ => rfl⟩
        refine ⟨?_, key.2, fed, rfl, ?_, ?_⟩
        · rw [key.1, ← hcmd]; rfl
        · intro _
          rw [key.1]
          exact ⟨rfl, rfl, rfl, rfl⟩
        · intro hn
          rw [hready] at hn
          cases hn
      · have hready' : fed.2.can_fetch = false := by simpa using hready
        rw [detect_eq_of_not_ready E fuel s data result fed hfeed hready'] at hdet
        cases hdet
        refine ⟨hcmd, fun _ => rfl, fed, rfl, ?_, ?_⟩
        · intro h
          rw [hready'] at h
          cases h
        · intro _
          exact ⟨rfl, rfl, rfl⟩
  · intro fed hfeed hfeat
    by_cases hready : fed.2.can_fetch = true
    · rw [detect_eq_of_ready E fuel s data result fed hfeed hready]
      obtain ⟨best, hbest, -, hsel, -⟩ := detectLoop_spec E
        (createFeature fed.1.raw_mfcc_ fed.1.frame_count_ fed.1.mfcc_engine_.coef_num)
        s.commands 0 (-1, UINT32_MAX) hfeat
      rw [hbest]
      rcases hsel with hsel | ⟨k, c, g, hk, -, hidx, -⟩
      · subst hsel
        exact ⟨(fed.1.reset E, result, false), by simp⟩
      · have hnn : best.1 ≥ 0 := by rw [hidx]; omega
        have hto : best.1.toNat = k := by rw [hidx]; simp
        exact ⟨(fed.1.reset E,
          { command_name := c.info.name, id := c.info.id, score := best.2 }, true),
          by simp only [hnn, if_true, hto, hk]⟩
    · have hready' : fed.2.can_fetch = false := by simpa using hready
      exact ⟨_, detect_eq_of_not_ready E fuel s data result fed hfeed hready'⟩

/-- C25 at concrete calls: a ready feed with a match leaves the registry as it
was and the buffer reset; on an empty registry the ready feed gives false and
the caller's result is untouched. -/
theorem detect_frame_effect_witness :
    demoMatchState.detect matchEngines 10 [7, 8] { command_name := "", id := 0, score := 0 } =
      .ok (demoMatchFed.reset matchEngines, { command_name := "b", id := 1, score := 7 }, true) ∧
    (demoMatchFed.reset matchEngines).commands = demoMatchState.commands ∧
    (demoMatchFed.reset matchEngines).raw_length_ = 0 ∧
    (({ demoMatchState with commands := [] } : MfccCommander (List VadState) Nat).detect
        matchEngines 10 [7, 8] { command_name := "x", id := 5, score := 6 } =
      .ok (({ demoMatchFed with commands := [] } : MfccCommander (List VadState) Nat).reset
        matchEngines, { command_name := "x", id := 5, score := 6 }, false)) ∧
    (false = false → ({ command_name := "x", id := 5, score := 6 } : DetectResult) =
      { command_name := "x", id := 5, score := 6 }) ∧
    ∃ out, demoMatchState.detect matchEngines 10 [7, 8]
      { command_name := "", id := 0, score := 0 } = .ok out :=
  ⟨rfl,
    ((detect_frame_effect matchEngines 10 demoMatchState [7, 8]
      { command_name := "", id := 0, score := 0 }).1
      (demoMatchFed.reset matchEngines, { command_name := "b", id := 1, score := 7 }, true)
      rfl).1,
    rfl, rfl,
    ((detect_frame_effect matchEngines 10
      ({ demoMatchState with commands := [] } : MfccCommander (List VadState) Nat) [7, 8]
      { command_name := "x", id := 5, score := 6 }).1
      (({ demoMatchFed with commands := [] } : MfccCommander (List VadState) Nat).reset
        matchEngines, { command_name := "x", id := 5, score := 6 }, false)
      rfl).2.1,
    (detect_frame_effect matchEngines 10 demoMatchState [7, 8]
      { command_name := "", id := 0, score := 0 }).2 (demoMatchFed, { can_fetch := true })
      (by decide) (by decide)⟩

end DetectEffect

end cmdvox

/-! ## Properties of the registration threshold -/

namespace cmdvox

section RegistrationClaims

end RegistrationClaims

end cmdvox

/-! ## Contents kept by the pre-speech trim -/

namespace cmdvox

section TrimLemmas

variable {σ α : Type}

/-- If the first `p * c` cells of `new` are the cells of `mem` from
`(n - p) * c` on, the first `p` frames of `new` are the last `p` of the first
`n` frames of `mem`. -/
theorem framesOf_eq_of_cells (mem new : List α) (c n p : Nat) (hp : p ≤ n)
    (hcells : ∀ i, i < p * c → new[i]? = mem[(n - p) * c + i]?) :
    framesOf new c p = (framesOf mem c n).drop (n - p) := by
  apply List.ext_getElem?
  intro j
  simp only [framesOf, List.getElem?_drop, List.getElem?_map]
  by_cases hj : j < p
  · rw [List.getElem?_range hj, List.getElem?_range (by omega : n - p + j < n)]
    simp only [Option.map_some', Option.some.injEq]
    apply List.ext_getElem?
    intro i
    by_cases hi : i < c
    · rw [List.getElem?_take_of_lt hi, List.getElem?_take_of_lt hi, List.getElem?_drop,
        List.getElem?_drop]
      have hle : (j + 1) * c ≤ p * c := Nat.mul_le_mul_right c hj
      rw [Nat.succ_mul] at hle
      rw [hcells (j * c + i) (by omega)]
      congr 1
      rw [Nat.add_mul]
      omega
    · have hi' : c ≤ i := by omega
      rw [List.getElem?_eq_none (by rw [List.length_take]; omega),
        List.getElem?_eq_none (by rw [List.length_take]; omega)]
  · rw [List.getElem?_eq_none (by rw [List.length_range]; omega),
      List.getElem?_eq_none (by rw [List.length_range]; omega)]
    rfl

/-- The cells the trim leaves: with `n` frames counted, a budget of
`p <= n` frames, `c` cells per frame and the `n` frames in memory, cell `i` of
the first `p * c` cells afterwards is cell `(n - p) * c + i` before. -/
theorem trim_cells (s : MfccCommander σ α) (n p c : Nat)
    (hn : s.frame_count_ = n) (hpre : s.pre_frame_num_ = p)
    (hc : s.config_.mfcc_config.coef_num = c) (hp : p ≤ n)
    (hmem : n * c ≤ s.raw_mfcc_.length) :
    ∀ i, i < p * c → s.trim.raw_mfcc_[i]? = s.raw_mfcc_[(n - p) * c + i]? := by
  intro i hi
  have hover : (s.frame_count_ - s.pre_frame_num_) * s.config_.mfcc_config.coef_num =
      (((n - p) * c : Nat) : Int) := by
    rw [hn, hpre, hc]; push_cast [Nat.cast_sub hp]; ring
  have hlen : s.frame_count_ * s.config_.mfcc_config.coef_num = ((n * c : Nat) : Int) := by
    rw [hn, hc]; push_cast; ring
  have hle : (n - p) * c ≤ n * c := Nat.mul_le_mul_right c (Nat.sub_le n p)
  have hsplit : n * c = (n - p) * c + p * c := by
    rw [← Nat.add_mul]; congr 1; omega
  have hnot : ¬ ((n * c : Nat) : Int) < (((n - p) * c : Nat) : Int) := by
    push_cast [Nat.cast_sub hp]
    have := Int.ofNat_le.mpr hle
    push_cast [Nat.cast_sub hp] at this
    omega
  have hk : (((n * c : Nat) : Int) - (((n - p) * c : Nat) : Int)).toNat = p * c := by
    have e : ((n * c : Nat) : Int) - (((n - p) * c : Nat) : Int) = ((p * c : Nat) : Int) := by
      have := congrArg (fun x : Nat => (x : Int)) hsplit
      simp only [Nat.cast_add] at this
      omega
    rw [e, Int.toNat_ofNat]
  simp only [MfccCommander.trim, arr_pop_front, hover, hlen, hnot, if_false, hk,
    Int.toNat_ofNat, copy_n, List.take_zero, List.nil_append, Nat.zero_add]
  rw [List.getElem?_append_left (by
    rw [List.length_take, List.length_drop]; omega)]
  rw [List.getElem?_take_of_lt hi, List.getElem?_drop]

end TrimLemmas

section TrimClaims

variable {σ α : Type}

/-- C21 (trim keeps the newest frames).  Take a `feedSample` call that runs
(no template pending) and returns, on a frame the voice-activity primitive
puts below `Speech`, and let `s3` be the state its extraction loop leaves,
holding `n = frame_count_` frames in memory with `n > pre_frame_num_ >= 0`
and `coef_num >= 0`.  After the call the frame count is `pre_frame_num_` and
the frames of the buffer are the last `pre_frame_num_` of the `n` frames of
`s3`, in the same order: the oldest `n - pre_frame_num_` are dropped. -/
theorem trim_keeps_newest (E : Engines σ α) (fuel : Nat) (s : MfccCommander σ α)
    (data : List Int) (out : MfccCommander σ α × FeedResult) (s3 : MfccCommander σ α)
    (hready : s.can_fetch = false) (hfeed : s.feedSample E fuel data = some out)
    (hloop : MfccCommander.extractLoop E fuel (s.feedPush E data) = some s3)
    (hvad : (E.vad_process s.vad_engine_ data).2 < VadState.Speech)
    (hpre : 0 ≤ s3.pre_frame_num_) (hn : s3.pre_frame_num_ < s3.frame_count_)
    (hcoef : 0 ≤ s3.config_.mfcc_config.coef_num)
    (hmem : (s3.frame_count_ * s3.config_.mfcc_config.coef_num).toNat ≤ s3.raw_mfcc_.length) :
    out.1.frame_count_ = s3.pre_frame_num_ ∧
      framesOf out.1.raw_mfcc_ s3.config_.mfcc_config.coef_num.toNat s3.pre_frame_num_.toNat =
        (framesOf s3.raw_mfcc_ s3.config_.mfcc_config.coef_num.toNat s3.frame_count_.toNat).drop
          (s3.frame_count_.toNat - s3.pre_frame_num_.toNat) := by
  have hout : out.1 = s3.trim := by
    rw [feedSample_eq E fuel s data hready, hloop] at hfeed
    simp only [Option.map_some', Option.some.injEq] at hfeed
    rw [← hfeed]
    simp only [hvad, hn, gt_iff_lt, and_self, if_true]
  have hnn : s3.frame_count_ = (s3.frame_count_.toNat : Int) := by
    rw [Int.toNat_of_nonneg (by omega)]
  have hpp : s3.pre_frame_num_ = (s3.pre_frame_num_.toNat : Int) := by
    rw [Int.toNat_of_nonneg hpre]
  have hcc : s3.config_.mfcc_config.coef_num = (s3.config_.mfcc_config.coef_num.toNat : Int) := by
    rw [Int.toNat_of_nonneg hcoef]
  have hple : s3.pre_frame_num_.toNat ≤ s3.frame_count_.toNat := by omega
  have hmem' : s3.frame_count_.toNat * s3.config_.mfcc_config.coef_num.toNat ≤
      s3.raw_mfcc_.length := by
    have h := hmem
    rw [hnn, hcc] at h
    have e : ((s3.frame_count_.toNat : Int) * (s3.config_.mfcc_config.coef_num.toNat : Int)).toNat =
        s3.frame_count_.toNat * s3.config_.mfcc_config.coef_num.toNat := by
      rw [← Nat.cast_mul, Int.toNat_ofNat]
    rw [e] at h
    exact h
  refine ⟨by rw [hout]; exact (trim_fields s3).1, ?_⟩
  rw [hout]
  exact framesOf_eq_of_cells _ _ _ _ _ hple
    (trim_cells s3 _ _ _ hnn hpp hcc hple hmem')

/-- C21 at a concrete call: after the second `Silence` frame the loop leaves
the frames `1, 2, 3`; the budget is one frame and the buffer then starts with
the newest frame `3`. -/
theorem trim_keeps_newest_witness :
    (demoState _ [VadState.Silence, VadState.Speech] [2, 2, 0, 0] 1 [1, 0, 0] 1
        VadState.Silence).feedSample scriptedEngines 10 [3, 4] =
      some (demoState _ [VadState.Speech] [4, 4, 4, 0] 1 [3, 2, 3] 1 VadState.Silence,
        { can_fetch := false }) ∧
    MfccCommander.extractLoop scriptedEngines 10
        ((demoState _ [VadState.Silence, VadState.Speech] [2, 2, 0, 0] 1 [1, 0, 0] 1
          VadState.Silence).feedPush scriptedEngines [3, 4]) =
      some (demoState _ [VadState.Speech] [4, 4, 4, 0] 1 [1, 2, 3] 3 VadState.Silence) ∧
    (demoState (List VadState) [VadState.Speech] [4, 4, 4, 0] 1 [3, 2, 3] 1
        VadState.Silence).frame_count_ = 1 ∧
    framesOf [3, 2, 3] 1 1 = (framesOf [1, 2, 3] 1 3).drop 2 ∧
    framesOf [3, 2, 3] 1 1 = [[3]] :=
  ⟨by decide, by decide,
    (trim_keeps_newest scriptedEngines 10
      (demoState _ [VadState.Silence, VadState.Speech] [2, 2, 0, 0] 1 [1, 0, 0] 1
        VadState.Silence) [3, 4]
      (demoState _ [VadState.Speech] [4, 4, 4, 0] 1 [3, 2, 3] 1 VadState.Silence,
        { can_fetch := false })
      (demoState _ [VadState.Speech] [4, 4, 4, 0] 1 [1, 2, 3] 3 VadState.Silence)
      (by decide) (by decide) (by decide) (by decide) (by decide) (by decide) (by decide)
      (by decide)).1,
    (trim_keeps_newest scriptedEngines 10
      (demoState _ [VadState.Silence, VadState.Speech] [2, 2, 0, 0] 1 [1, 0, 0] 1
        VadState.Silence) [3, 4]
      (demoState _ [VadState.Speech] [4, 4, 4, 0] 1 [3, 2, 3] 1 VadState.Silence,
        { can_fetch := false })
      (demoState _ [VadState.Speech] [4, 4, 4, 0] 1 [1, 2, 3] 3 VadState.Silence)
      (by decide) (by decide) (by decide) (by decide) (by decide) (by decide) (by decide)
      (by decide)).2,
    by decide⟩

end TrimClaims

end cmdvox

/-! ## Frame count of a continuous utterance -/

namespace cmdvox

section UtteranceLemmas

variable {σ α : Type}

/-- The extraction loop, entered with the frame count at most
`max_frame_num_`, makes some number `m` of passes: it takes `m * hop_length`
samples off the raw queue, the last pass was made with at least
`frame_length` samples queued, fewer than `frame_length` remain, and the frame
count grows by `m`, capped at `max_frame_num_`. -/
theorem extractLoop_count (E : Engines σ α) (fuel : Nat) :
    ∀ s s' : MfccCommander σ α, MfccCommander.extractLoop E fuel s = some s' →
      0 < s.config_.mfcc_config.hop_length →
      s.config_.mfcc_config.hop_length ≤ s.config_.mfcc_config.frame_length →
      s.frame_count_ ≤ s.max_frame_num_ →
      ∃ m : Int, 0 ≤ m ∧
        s'.raw_length_ = s.raw_length_ - m * s.config_.mfcc_config.hop_length ∧
        (m = 0 ∨ s.config_.mfcc_config.frame_length ≤
          s.raw_length_ - (m - 1) * s.config_.mfcc_config.hop_length) ∧
        s'.frame_count_ = min s.max_frame_num_ (s.frame_count_ + m) ∧
        s'.raw_length_ < s.config_.mfcc_config.frame_length := by
  induction fuel with
  | zero => intro s s' h; simp [MfccCommander.extractLoop] at h
  | succ n ih =>
    intro s s' h hH hF hfc
    unfold MfccCommander.extractLoop at h
    by_cases hc : s.raw_length_ ≥ s.config_.mfcc_config.frame_length
    · rw [if_pos hc] at h
      obtain ⟨-, -, hcfg, -, -, -⟩ := extractStep_fields E s
      have hmax := (extractStep_fields E s).1
      have hlen := extractStep_raw_length E s
      have hnot : ¬ s.raw_length_ < s.config_.mfcc_config.hop_length := by omega
      rw [if_neg hnot] at hlen
      have hcount := extractStep_frame_count E s
      obtain ⟨m, hm0, h1, h2, h3, h4⟩ := ih (s.extractStep E) s' h (by rw [hcfg]; exact hH)
        (by rw [hcfg]; exact hF) (by rw [hmax, hcount]; split <;> omega)
      rw [hcfg, hlen] at h1 h2
      rw [hcfg] at h4
      rw [hmax, hcount] at h3
      refine ⟨m + 1, by omega, ?_, Or.inr ?_, ?_, h4⟩
      · rw [h1]; ring
      · rcases h2 with h2 | h2
        · rw [h2]; simp; exact hc
        · have e : s.raw_length_ - (m + 1 - 1) * s.config_.mfcc_config.hop_length =
              s.raw_length_ - s.config_.mfcc_config.hop_length -
                (m - 1) * s.config_.mfcc_config.hop_length := by ring
          rw [e]; exact h2
      · rw [h3]
        split <;> omega
    · rw [if_neg hc] at h
      cases h
      exact ⟨0, le_refl _, by simp, Or.inl rfl, by simp; exact hfc, by omega⟩

/-- On a frame the voice-activity primitive puts at `Speech`, `feedSample`
pushes the frame: the raw queue grows by the voice-activity frame length. -/
theorem feedPush_speech (E : Engines σ α) (s : MfccCommander σ α) (data : List Int)
    (hvad : (E.vad_process s.vad_engine_ data).2 = VadState.Speech) :
    (s.feedPush E data).raw_length_ = s.raw_length_ + s.config_.vad_config.frame_length ∧
      (s.feedPush E data).frame_count_ = s.frame_count_ ∧
      (s.feedPush E data).max_frame_num_ = s.max_frame_num_ := by
  unfold MfccCommander.feedPush
  simp only [hvad]
  have hge : VadState.Speech ≥ VadState.Silence := by decide
  simp only [hge, if_true]
  exact ⟨rfl, trivial, trivial⟩

/-- One more `Speech` frame keeps the bookkeeping, with one more pushed frame
and the passes of this call added. -/
theorem utterance_step (E : Engines σ α) (fuel : Nat) (s0 s : MfccCommander σ α)
    (data : List Int) (out : MfccCommander σ α × FeedResult) (i : Nat) (t : Int)
    (hH : 0 < s0.config_.mfcc_config.hop_length)
    (hF : s0.config_.mfcc_config.hop_length ≤ s0.config_.mfcc_config.frame_length)
    (hV : 0 < s0.config_.vad_config.frame_length)
    (hinv : UtteranceInv s0 s i t) (hready : s.can_fetch = false)
    (hfeed : s.feedSample E fuel data = some out)
    (hsp : out.1.vad_state_ = VadState.Speech) :
    ∃ t', UtteranceInv s0 out.1 (i + 1) t' := by
  obtain ⟨icfg, imax, it0, iraw, -, ilast, ifc⟩ := hinv
  obtain ⟨r1, -⟩ := feedSample_run E fuel s data out hready hfeed
  have hres : (E.vad_process s.vad_engine_ data).2 = VadState.Speech := by rw [← r1]; exact hsp
  obtain ⟨s3, hloop, ho⟩ := feedSample_out E fuel s data out hready hfeed
  have hs3 : out.1 = s3 := by
    rcases ho with ho | ⟨-, hlt, -⟩
    · exact ho
    · rw [hres] at hlt
      exact absurd hlt (by decide)
  obtain ⟨p1, p2, p3⟩ := feedPush_speech E s data hres
  have pcfg := feedPush_config E s data
  obtain ⟨f1, -, f3, -, -, -⟩ := extractLoop_fields E fuel _ _ hloop
  obtain ⟨m, hm0, c1, c2, c3, c4⟩ := extractLoop_count E fuel _ _ hloop
    (by rw [pcfg, icfg]; exact hH) (by rw [pcfg, icfg]; exact hF)
    (by rw [p2, p3, ifc, imax]; exact min_le_left _ _)
  rw [pcfg, icfg, p1, icfg, iraw] at c1 c2
  rw [pcfg, icfg] at c4
  rw [p2, p3, ifc, imax] at c3
  rw [hs3]
  refine ⟨t + m, f3.trans (pcfg.trans icfg), f1.trans (p3.trans imax), by omega, ?_, c4, ?_, ?_⟩
  · rw [c1]; push_cast; ring
  · rcases c2 with c2 | c2
    · subst c2
      rcases ilast with ilast | ilast
      · left; omega
      · right
        push_cast
        have e : t + 0 - 1 = t - 1 := by ring
        rw [e]
        nlinarith
    · right
      push_cast
      have e : ((i : Int) + 1) * s0.config_.vad_config.frame_length -
            (t + m - 1) * s0.config_.mfcc_config.hop_length =
          (i : Int) * s0.config_.vad_config.frame_length -
            t * s0.config_.mfcc_config.hop_length + s0.config_.vad_config.frame_length -
            (m - 1) * s0.config_.mfcc_config.hop_length := by ring
      rw [e]; exact c2
  · rw [c3]
    omega

/-- The bookkeeping determines the number of passes: it is the number of frames
the pushed samples contain. -/
theorem utterance_count (s0 s : MfccCommander σ α) (i : Nat) (t : Int)
    (hH : 0 < s0.config_.mfcc_config.hop_length)
    (hinv : UtteranceInv s0 s i t) :
    t = utteranceFrames s0.config_.vad_config.frame_length s0.config_.mfcc_config.frame_length
      s0.config_.mfcc_config.hop_length i := by
  obtain ⟨-, -, it0, iraw, ilt, ilast, -⟩ := hinv
  rw [iraw] at ilt
  unfold utteranceFrames
  by_cases hlt : (i : Int) * s0.config_.vad_config.frame_length <
      s0.config_.mfcc_config.frame_length
  · rw [if_pos hlt]
    rcases ilast with h | h
    · exact h
    · by_contra hne
      have ht : 1 ≤ t := by omega
      have : 0 ≤ (t - 1) * s0.config_.mfcc_config.hop_length :=
        mul_nonneg (by omega) (le_of_lt hH)
      omega
  · rw [if_neg hlt]
    have ht1 : 1 ≤ t := by
      by_contra h1
      have : t = 0 := by omega
      subst this
      simp at ilt
      omega
    have hlast : s0.config_.mfcc_config.frame_length ≤
        (i : Int) * s0.config_.vad_config.frame_length -
          (t - 1) * s0.config_.mfcc_config.hop_length := by
      rcases ilast with h | h
      · omega
      · exact h
    have hq1 : t - 1 ≤ ((i : Int) * s0.config_.vad_config.frame_length -
        s0.config_.mfcc_config.frame_length) / s0.config_.mfcc_config.hop_length := by
      rw [Int.le_ediv_iff_mul_le hH]; linarith
    have hq2 : ((i : Int) * s0.config_.vad_config.frame_length -
        s0.config_.mfcc_config.frame_length) / s0.config_.mfcc_config.hop_length < t := by
      rw [Int.ediv_lt_iff_lt_mul hH]; linarith
    omega

/-- Along a run of `Speech` frames the bookkeeping holds after every call all
of whose predecessors reported not ready. -/
theorem utterance_run (E : Engines σ α) (s0 : MfccCommander σ α)
    (hH : 0 < s0.config_.mfcc_config.hop_length)
    (hF : s0.config_.mfcc_config.hop_length ≤ s0.config_.mfcc_config.frame_length)
    (hV : 0 < s0.config_.vad_config.frame_length)
    (calls : List (Nat × List Int)) :
    ∀ (s : MfccCommander σ α) (outs : List (MfccCommander σ α × FeedResult)) (i : Nat) (t : Int),
      UtteranceInv s0 s i t → s.can_fetch = false →
      MfccCommander.feedAll E s calls = some outs →
      (∀ out ∈ outs, out.1.vad_state_ = VadState.Speech) →
      ∀ (k : Nat) (out : MfccCommander σ α × FeedResult), outs.get? k = some out →
        (∀ (j : Nat) (o : MfccCommander σ α × FeedResult), j < k → outs.get? j = some o →
          o.2.can_fetch = false) →
        ∃ t', UtteranceInv s0 out.1 (i + k + 1) t' := by
  induction calls with
  | nil =>
    intro s outs i t _ _ h _ k out hk
    simp only [MfccCommander.feedAll, Option.some.injEq] at h
    subst h
    simp at hk
  | cons call rest ih =>
    intro s outs i t hinv hready h hsp k out hk hearly
    unfold MfccCommander.feedAll at h
    split at h
    · cases h
    · rename_i out1 hfeed
      simp only [Option.map_eq_some'] at h
      obtain ⟨tail, htail, rfl⟩ := h
      obtain ⟨t1, hinv1⟩ := utterance_step E call.1 s0 s call.2 out1 i t hH hF hV hinv hready
        hfeed (hsp out1 (List.mem_cons_self _ _))
      cases k with
      | zero =>
        simp only [List.get?_cons_zero, Option.some.injEq] at hk
        subst hk
        exact ⟨t1, hinv1⟩
      | succ k' =>
        simp only [List.get?_cons_succ] at hk
        have hflag := (feedSample_flag_commands E call.1 s call.2 out1 hfeed).1
        have hnr : out1.1.can_fetch = false := by
          rw [← hflag]
          exact hearly 0 out1 (Nat.succ_pos k') rfl
        obtain ⟨t', ht'⟩ := ih out1.1 tail (i + 1) t1 hinv1 hnr htail
          (fun o ho => hsp o (List.mem_cons_of_mem _ ho)) k' out hk
          (fun j o hj ho => hearly (j + 1) o (Nat.succ_lt_succ hj) (by simpa using ho))
        exact ⟨t', by
          have e : i + (k' + 1) + 1 = i + 1 + k' + 1 := by omega
          rw [e]; exact ht'⟩

end UtteranceLemmas

section UtteranceClaims

variable {σ α : Type}

/-- C24 (frame count of a continuous utterance).  Let `V > 0` be the
voice-activity frame length, `F` the MFCC frame length, `0 < H <= F` the hop
length and `max_frame_num_ >= 0`.  Start from the reset state and make a run
of `feedSample` calls that return with the voice-activity state at `Speech`
after each.  For every call of the run, the `(k + 1)`-th say, before which no
call reported ready: the frame count after it is
`min(max_frame_num_, n)` and the raw queue length is `(k + 1) * V - n * H`,
where `n` is `0` if `(k + 1) * V < F` and `((k + 1) * V - F) / H + 1`
otherwise. -/
theorem utterance_frame_count (E : Engines σ α) (s : MfccCommander σ α)
    (hV : 0 < s.config_.vad_config.frame_length)
    (hH : 0 < s.config_.mfcc_config.hop_length)
    (hF : s.config_.mfcc_config.hop_length ≤ s.config_.mfcc_config.frame_length)
    (hmax : 0 ≤ s.max_frame_num_)
    (calls : List (Nat × List Int)) (outs : List (MfccCommander σ α × FeedResult))
    (hrun : MfccCommander.feedAll E (s.reset E) calls = some outs)
    (hspeech : ∀ out ∈ outs, out.1.vad_state_ = VadState.Speech)
    (k : Nat) (out : MfccCommander σ α × FeedResult) (hk : outs.get? k = some out)
    (hearly : ∀ (j : Nat) (o : MfccCommander σ α × FeedResult), j < k →
      outs.get? j = some o → o.2.can_fetch = false) :
    out.1.frame_count_ =
        min s.max_frame_num_
          (utteranceFrames s.config_.vad_config.frame_length s.config_.mfcc_config.frame_length
            s.config_.mfcc_config.hop_length (k + 1)) ∧
      out.1.raw_length_ =
        ((k + 1 : Nat) : Int) * s.config_.vad_config.frame_length -
          utteranceFrames s.config_.vad_config.frame_length s.config_.mfcc_config.frame_length
            s.config_.mfcc_config.hop_length (k + 1) * s.config_.mfcc_config.hop_length := by
  have hinv0 : UtteranceInv (s.reset E) (s.reset E) 0 0 := by
    refine ⟨rfl, rfl, le_refl _, ?_, ?_, Or.inl rfl, ?_⟩
    · simp [MfccCommander.reset]
    · show (0 : Int) < s.config_.mfcc_config.frame_length
      omega
    · show (0 : Int) = min s.max_frame_num_ 0
      omega
  have hnr : (s.reset E).can_fetch = false := by
    have hw : ¬ VadState.Speech ≤ VadState.Warmup := by decide
    simp [MfccCommander.can_fetch, MfccCommander.reset, hw]
  obtain ⟨t, ht⟩ := utterance_run E (s.reset E) hH hF hV calls (s.reset E) outs 0 0 hinv0 hnr
    hrun hspeech k out hk hearly
  have hcount := utterance_count (s.reset E) out.1 (0 + k + 1) t hH ht
  obtain ⟨-, -, -, iraw, -, -, ifc⟩ := ht
  have e : 0 + k + 1 = k + 1 := by omega
  rw [e] at hcount iraw
  rw [hcount] at iraw ifc
  exact ⟨ifc, iraw⟩

/-- C24 at a concrete run: frames of 2 samples, MFCC frames of 2 samples with
hop 1 and room for 3 frames; after the second `Speech` frame 4 samples were
pushed, which contain 3 frames, and 1 sample is left. -/
theorem utterance_frame_count_witness :
    MfccCommander.feedAll scriptedEngines
        ((demoCommander _ [VadState.Speech, VadState.Speech, VadState.Detected]).reset
          scriptedEngines)
        [(10, [1, 2]), (10, [3, 4])] =
      some [(demoState _ [VadState.Speech, VadState.Detected] [2, 2, 0, 0] 1 [1, 0, 0] 1
          VadState.Speech, { can_fetch := false }),
        (demoState _ [VadState.Detected] [4, 4, 4, 0] 1 [1, 2, 3] 3 VadState.Speech,
          { can_fetch := true })] ∧
    utteranceFrames 2 2 1 2 = 3 ∧
    ((demoState (List VadState) [VadState.Detected] [4, 4, 4, 0] 1 [1, 2, 3] 3
          VadState.Speech).frame_count_ = min 3 (utteranceFrames 2 2 1 (1 + 1)) ∧
      (demoState (List VadState) [VadState.Detected] [4, 4, 4, 0] 1 [1, 2, 3] 3
          VadState.Speech).raw_length_ =
        ((1 + 1 : Nat) : Int) * 2 - utteranceFrames 2 2 1 (1 + 1) * 1) :=
  ⟨by decide, by decide,
    utterance_frame_count scriptedEngines
      (demoCommander _ [VadState.Speech, VadState.Speech, VadState.Detected])
      (by decide) (by decide) (by decide) (by decide) [(10, [1, 2]), (10, [3, 4])]
      [(demoState _ [VadState.Speech, VadState.Detected] [2, 2, 0, 0] 1 [1, 0, 0] 1
          VadState.Speech, { can_fetch := false }),
        (demoState _ [VadState.Detected] [4, 4, 4, 0] 1 [1, 2, 3] 3 VadState.Speech,
          { can_fetch := true })]
      (by decide) (by decide) 1
      (demoState _ [VadState.Detected] [4, 4, 4, 0] 1 [1, 2, 3] 3 VadState.Speech,
        { can_fetch := true })
      rfl
      (by
        intro j o hj ho
        obtain rfl : j = 0 := by omega
        injection ho with ho
        subst ho
        rfl)⟩

end UtteranceClaims

end cmdvox
